import Mathlib

/-!
# Verification of the image-downloader normalization pipeline

Shallow embedding of `app/main.py` (Cyb3rWaste/cc-image-downloader).

Filesystem model: a file system is an association list `FS = List (Pth × Nat)`
mapping paths to abstract content blobs (a `Nat` stands for the bytes of a
file).  A path `Pth` is a directory string paired with a file name, which is
how every path manipulated by the pipeline is built (all resolvers produce
`directory / name` paths).  External libraries (werkzeug, PIL, pandas,
requests, urllib) are modelled at their documented interfaces, as the
specification treats them as external collaborators.
-/

/-- Python `str.isspace` on the ASCII whitespace characters recognised by
`str.split()` / `str.strip()`. -/
def pyIsSpace (c : Char) : Bool :=
  c = ' ' ∨ c = '\t' ∨ c = '\n' ∨ c = '\x0d' ∨ c = '\x0b' ∨ c = '\x0c'

/-- Characters kept by werkzeug's sanitisation regex `[A-Za-z0-9_.-]`. -/
def allowedChar (c : Char) : Bool :=
  c.isAlphanum ∨ c = '_' ∨ c = '.' ∨ c = '-'

/-- The characters removed from both ends by werkzeug's `strip("._")`. -/
def stripDotUnd (c : Char) : Bool := c = '.' ∨ c = '_'

/-- Remove characters satisfying `p` from both ends of a character list
(Python `str.strip`). -/
def stripChars (p : Char → Bool) (l : List Char) : List Char :=
  ((l.dropWhile p).reverse.dropWhile p).reverse

/-- Split a character list into maximal whitespace-free words
(Python `str.split()` with no argument); `acc` holds the current word,
reversed. -/
def splitWsAux : List Char → List Char → List (List Char)
  | [], acc => if acc.isEmpty then [] else [acc.reverse]
  | c :: rest, acc =>
    if pyIsSpace c then
      if acc.isEmpty then splitWsAux rest [] else acc.reverse :: splitWsAux rest []
    else splitWsAux rest (c :: acc)

/-- Python `str.split()` with no argument. -/
def splitWs (l : List Char) : List (List Char) := splitWsAux l []

/-- External `werkzeug.utils.secure_filename`, modelled at its interface for a
POSIX host: NFKD-normalise and drop non-ASCII (the identity on the ASCII
inputs this development evaluates, so modelled as dropping non-ASCII code
points), replace the path separator `/` by a space, join the whitespace-split
words with `_`, delete every character outside `[A-Za-z0-9_.-]`, and strip
leading and trailing `.` and `_`. -/
def secure_filename (filename : String) : String :=
  let ascii := filename.data.filter (fun c => c.toNat < 128)
  let replaced := ascii.map (fun c => if c = '/' then ' ' else c)
  let joined := List.intercalate ['_'] (splitWs replaced)
  let kept := joined.filter allowedChar
  String.mk (stripChars stripDotUnd kept)

/-- Python `str.strip()` with no argument (trim ASCII whitespace). -/
def pyStrip (s : String) : String := String.mk (stripChars pyIsSpace s.data)

/-- Python `str.lower()` (ASCII-faithful). -/
def pyLower (s : String) : String := String.mk (s.data.map Char.toLower)

/-- Split a character list on a separator character, keeping empty pieces
(Python `str.split(sep)`); `acc` holds the current piece, reversed. -/
def splitCharAux (sep : Char) : List Char → List Char → List (List Char)
  | [], acc => [acc.reverse]
  | c :: rest, acc =>
    if c = sep then acc.reverse :: splitCharAux sep rest []
    else splitCharAux sep rest (c :: acc)

/-- `sanitize_sku` (main.py lines 115-121): return a safe SKU fragment
suitable for embedding in filenames, or `none`. -/
def sanitize_sku (value : Option String) : Option String :=
  match value with
  | none => none
  | some v =>
    let candidate := secure_filename (pyStrip v)
    let cleaned := String.mk (candidate.data.map (fun c => if c = '_' then '-' else c))
    if cleaned = "" then none else some cleaned

/-- A filesystem path, as the pipeline builds them: a parent directory and a
final component (`pathlib` paths compare componentwise). -/
structure Pth where
  dir : String
  base : String
deriving DecidableEq, Repr

/-- A filesystem: the set of existing files with their contents (an abstract
`Nat` blob per file). -/
def FS := List (Pth × Nat)

instance : DecidableEq FS := by unfold FS; infer_instance

/-- The set of paths that exist in the filesystem. -/
def fsPaths (fs : FS) : List Pth := fs.map Prod.fst

/-- `Path.exists()` in the model. -/
def fsExists (fs : FS) (p : Pth) : Bool := decide (p ∈ fsPaths fs)

/-- Read a file's content (`none` when the file does not exist). -/
def fsRead (fs : FS) (p : Pth) : Option Nat :=
  (fs.find? (fun e => decide (e.1 = p))).map Prod.snd

/-- `Path.unlink` in the model. -/
def fsRemove (fs : FS) (p : Pth) : FS := fs.filter (fun e => decide (e.1 ≠ p))

/-- Write (create or overwrite) a file. -/
def fsWrite (fs : FS) (p : Pth) (b : Nat) : FS := (p, b) :: fsRemove fs p

/-- Decimal digit character. -/
def digitChar (n : Nat) : Char :=
  match n with
  | 0 => '0' | 1 => '1' | 2 => '2' | 3 => '3' | 4 => '4'
  | 5 => '5' | 6 => '6' | 7 => '7' | 8 => '8' | _ => '9'

/-- Decimal digits of `n`, most significant first, with structural fuel
(`fuel > n` suffices). -/
def natReprA : Nat → Nat → List Char
  | 0, _ => []
  | f + 1, n =>
    if n < 10 then [digitChar n] else natReprA f (n / 10) ++ [digitChar (n % 10)]

/-- Decimal rendering of a natural number, as produced by a Python f-string
such as `f"{counter}"`. -/
def natRepr (n : Nat) : String := String.mk (natReprA (n + 1) n)

/-- `pathlib` suffix computation: index data for the final `.`-split of a
name.  Returns the number of characters after the last dot of `name`
(or `name.length` if there is no dot). -/
def afterDotLen (name : List Char) : Nat :=
  (name.reverse.takeWhile (fun c => ¬(c = '.'))).length

/-- Split a file name into `(stem, suffix)` following `pathlib`
(`PurePath.stem` / `PurePath.suffix`): the suffix starts at the last dot,
provided that dot is neither the first nor the last character. -/
def splitExt (name : List Char) : List Char × List Char :=
  let aLen := afterDotLen name
  if aLen + 1 < name.length ∧ 0 < aLen then
    (name.take (name.length - (aLen + 1)), name.drop (name.length - (aLen + 1)))
  else (name, [])

/-- `PurePath.stem` of a final path component. -/
def pathStem (name : String) : String := String.mk (splitExt name.data).1

/-- `PurePath.suffix` of a final path component. -/
def pathSuffix (name : String) : String := String.mk (splitExt name.data).2

/-- First counter `c ≥ start` with `bad c = false`, examined left to right
with structural fuel (the Python `while True` loop of `get_unique_path`,
which terminates because the filesystem is finite). -/
def searchFrom (bad : Nat → Bool) : Nat → Nat → Nat
  | 0, start => start
  | f + 1, start => if bad start then searchFrom bad f (start + 1) else start

/-- The sanitised name used by `get_unique_path` (main.py line 80):
`secure_filename(filename) or "image.jpg"`. -/
def gupSafeName (filename : String) : String :=
  if secure_filename filename = "" then "image.jpg" else secure_filename filename

/-- The stem used by the collision loop of `get_unique_path` (line 85). -/
def gupStem (filename : String) : String := pathStem (gupSafeName filename)

/-- The suffix used by the collision loop of `get_unique_path` (line 86):
`path.suffix or ".jpg"`. -/
def gupSuffix (filename : String) : String :=
  if pathSuffix (gupSafeName filename) = "" then ".jpg"
  else pathSuffix (gupSafeName filename)

/-- The candidate path tried by the collision loop of `get_unique_path` for
counter `c` (line 89): `directory / f"{stem}_{counter}{suffix}"`. -/
def gupCandidate (directory filename : String) (c : Nat) : Pth :=
  ⟨directory, gupStem filename ++ "_" ++ natRepr c ++ gupSuffix filename⟩

/-- `get_unique_path` (main.py lines 78-92): return a filesystem-safe unique
path within a directory.  The unbounded `while True` search is run with fuel
`fs.length + 1`, which is proved sufficient below
(`exists_free_counter`). -/
def get_unique_path (fs : FS) (directory filename : String) : Pth :=
  let path : Pth := ⟨directory, gupSafeName filename⟩
  if fsExists fs path then
    gupCandidate directory filename
      (searchFrom (fun c => fsExists fs (gupCandidate directory filename c))
        (fs.length + 1) 1)
  else path

/-- `build_output_filename` (main.py lines 124-144): combine the source stem,
an optional sanitised SKU fragment and the literal token `web`, join the
non-empty parts with hyphens, sanitise, append the extension, and resolve to
a unique path in the source's parent directory. -/
def build_output_filename (fs : FS) (source_path : Pth) (extension : String)
    (include_suffix : Bool) (sku : Option String) : Pth :=
  let base_name := pathStem source_path.base
  let parts : List String :=
    base_name ::
      (if include_suffix then
        (match sanitize_sku sku with
         | some normalized => [normalized]
         | none => []) ++ ["web"]
      else [])
  let candidate_name := String.intercalate "-" (parts.filter (fun p => ¬(p = "")))
  let s := String.mk ((secure_filename candidate_name).data.map (fun c => if c = '_' then '-' else c))
  let safe_stem := if s = "" then "image" else s
  get_unique_path fs source_path.dir (safe_stem ++ extension)

/-- An in-memory PIL image: its mode string (`"RGBA"`, `"LA"`, `"P"`,
`"RGB"`, ...) and abstract pixel data. -/
structure Img where
  mode : String
  data : Nat
deriving DecidableEq, Repr

/-- The interface of the PIL operations used by `convert_image_for_web`,
modelled abstractly (the claims under verification do not depend on pixel
values): decoding a blob (`Image.open`, `none` = `UnidentifiedImageError` or
read error), `Image.convert`, creating an opaque white canvas of the size of
a given image (`Image.new("RGBA", size, (255,255,255,255))`), pasting an
image onto a canvas through its alpha mask (`paste(img, mask=split()[3])`),
and JPEG encoding at a given quality (`save(..., "JPEG", quality, optimize)`,
`none` = `OSError`). -/
structure PixOps where
  decode : Nat → Option Img
  convert : Img → String → Img
  newWhite : Img → Img
  pasteMasked : Img → Img → Img
  encode : Img → Nat → Option Nat

/-- The mode-dependent flattening of `convert_image_for_web`
(main.py lines 175-187): alpha and palette modes are composited over white,
everything else is converted directly to RGB. -/
def flatten (ops : PixOps) (img : Img) : Img :=
  if img.mode = "RGBA" ∨ img.mode = "LA" then
    let rgba := ops.convert img "RGBA"
    let background := ops.newWhite rgba
    let pasted := ops.pasteMasked background rgba
    ops.convert pasted "RGB"
  else if img.mode = "P" then
    let rgba := ops.convert img "RGBA"
    let background := ops.newWhite rgba
    let pasted := ops.pasteMasked background rgba
    ops.convert pasted "RGB"
  else ops.convert img "RGB"

/-- `convert_image_for_web` (main.py lines 147-203): convert or rename an
image according to the requested output format.  Returns the updated
filesystem and the final path (`none` on failure).  Failure points mirror
the source: a rename `OSError` (modelled: missing source), `Image.open`
failure (missing file or undecodable blob) and `save` failure. -/
def convert_image_for_web (ops : PixOps) (fs : FS) (image_path : Pth)
    (quality : Nat) (keep_png : Bool) (enhance_filenames : Bool)
    (sku : Option String) : FS × Option Pth :=
  let suffix := pyLower (pathSuffix image_path.base)
  let sku_fragment := if enhance_filenames then sku else none
  if suffix = ".png" ∧ keep_png then
    if enhance_filenames then
      let target_path := build_output_filename fs image_path ".png" true sku_fragment
      match fsRead fs image_path with
      | some b => (fsWrite (fsRemove fs image_path) target_path b, some target_path)
      | none => (fs, none)
    else (fs, some image_path)
  else
    match fsRead fs image_path with
    | none => (fs, none)
    | some blob =>
      match ops.decode blob with
      | none => (fs, none)
      | some img =>
        let working := flatten ops img
        let target_path :=
          build_output_filename fs image_path ".jpg" enhance_filenames sku_fragment
        match ops.encode working quality with
        | none => (fs, none)
        | some out =>
          let fs1 := fsWrite fs target_path out
          let fs2 :=
            if target_path ≠ image_path ∧ fsExists fs1 image_path then
              fsRemove fs1 image_path
            else fs1
          (fs2, some target_path)

/-- `post_process_files` (main.py lines 206-229): convert the files one by
one in input order, threading the filesystem, and return the processed and
failed name lists (the loop's `append`s build the lists front to back). -/
def post_process_files (ops : PixOps) (fs : FS)
    (file_jobs : List (Pth × Option String)) (quality : Nat)
    (keep_png : Bool) (enhance_filenames : Bool) :
    FS × List String × List String :=
  match file_jobs with
  | [] => (fs, [], [])
  | (path, sku) :: rest =>
    match convert_image_for_web ops fs path quality keep_png enhance_filenames sku with
    | (fs1, some result) =>
      let out := post_process_files ops fs1 rest quality keep_png enhance_filenames
      (out.1, result.base :: out.2.1, out.2.2)
    | (fs1, none) =>
      let out := post_process_files ops fs1 rest quality keep_png enhance_filenames
      (out.1, out.2.1, path.base :: out.2.2)

/-- A parsed CSV as pandas delivers it: the header row and, for each data
row, one cell per header column, where `none` is a missing value (`NaN`). -/
structure Csv where
  header : List String
  rows : List (List (Option String))

/-- `row[label]` for a pandas row: the cell under the first header column
equal to `label` (`none` when the column is missing or the cell is `NaN`). -/
def cellAt (header : List String) (row : List (Option String)) (label : String) :
    Option String :=
  match header.findIdx? (fun c => c = label) with
  | none => none
  | some i => (row.getD i none)

/-- `extract_image_records` (main.py lines 266-297): read the CSV and return
`(url, sku)` records for the requested column, together with the detected
SKU column label. -/
def extract_image_records (csv : Csv) (column : String) :
    Except String (List (String × Option String) × Option String) :=
  if ¬(column ∈ csv.header) then
    Except.error ("The CSV file must contain a '" ++ column ++ "' column.")
  else
    let sku_column := csv.header.find? (fun c => pyLower (pyStrip c) = "sku")
    let records := csv.rows.filterMap (fun row =>
      match cellAt csv.header row column with
      | none => none
      | some raw_url =>
        let url := pyStrip raw_url
        if url = "" then none
        else
          some (url,
            match sku_column with
            | none => none
            | some sc =>
              match cellAt csv.header row sc with
              | none => none
              | some raw_sku => some (pyStrip raw_sku)))
    Except.ok (records, sku_column)

/-- Reference definition for C4, following the spec's words (section 4.6):
fail when the column is absent; otherwise keep, in row order, exactly the
rows whose target cell is present and non-empty after trimming, mapping each
to its trimmed URL and trimmed-or-none SKU; the SKU column is the first
header matching "sku" case-insensitively after trimming. -/
def extract_records_spec (csv : Csv) (column : String) :
    Except String (List (String × Option String) × Option String) :=
  if ¬(column ∈ csv.header) then
    Except.error ("The CSV file must contain a '" ++ column ++ "' column.")
  else
    let sku_column := csv.header.find? (fun c => pyLower (pyStrip c) = "sku")
    let keep : List (Option String) → Bool := fun row =>
      match cellAt csv.header row column with
      | none => false
      | some raw => ¬(pyStrip raw = "")
    let toRecord : List (Option String) → String × Option String := fun row =>
      ((cellAt csv.header row column).elim "" pyStrip,
        match sku_column with
        | none => none
        | some sc => (cellAt csv.header row sc).map pyStrip)
    Except.ok ((csv.rows.filter keep).map toRecord, sku_column)

/-- Everything after the first occurrence of `"://"`, or `none` when the
marker is absent. -/
def dropAfterMarker : List Char → Option (List Char)
  | [] => none
  | ':' :: '/' :: '/' :: rest => some rest
  | _ :: rest => dropAfterMarker rest

/-- External `urllib.parse.urlparse(url).path`, modelled at its interface:
everything after the `scheme://authority` part and before the query or
fragment (for scheme-less inputs, the input up to the query or fragment). -/
def urlparse_path (url : String) : String :=
  match dropAfterMarker url.data with
  | none => String.mk (url.data.takeWhile (fun c => ¬(c = '?' ∨ c = '#')))
  | some after =>
    String.mk
      ((after.dropWhile (fun c => ¬(c = '/'))).takeWhile (fun c => ¬(c = '?' ∨ c = '#')))

/-- `pathlib.Path(p).name`: the last non-empty `/`-separated component. -/
def pathNameOf (p : String) : String :=
  String.mk ((((splitCharAux '/' p.data []).filter (fun s => ¬(s = []))).getLastD []))

/-- The file name `download_images` derives from a URL (main.py line 310):
`Path(urlparse(url).path).name or "image.jpg"`. -/
def urlFileName (url : String) : String :=
  if pathNameOf (urlparse_path url) = "" then "image.jpg"
  else pathNameOf (urlparse_path url)

/-- `download_images` (main.py lines 300-323): fetch each record's URL in
order to a unique path in the target folder.  `net` is the HTTP world:
`net url` is the downloaded body, or `none` when the request raises any
exception (network error, timeout, `raise_for_status`, I/O error); a failed
request leaves the filesystem unchanged and records the original URL. -/
def download_images (net : String → Option Nat) (fs : FS)
    (image_records : List (String × Option String)) (folder_path : String) :
    FS × List (Pth × Option String) × List String :=
  match image_records with
  | [] => (fs, [], [])
  | (url, sku) :: rest =>
    let target_path := get_unique_path fs folder_path (urlFileName url)
    match net url with
    | some body =>
      let out := download_images net (fsWrite fs target_path body) rest folder_path
      (out.1, (target_path, sku) :: out.2.1, out.2.2)
    | none =>
      let out := download_images net fs rest folder_path
      (out.1, out.2.1, url :: out.2.2)

/-- A `pathlib.Path` value as handled by the folder-resolution code: an
absolute flag and the parsed components (`pathlib` drops empty and `"."`
components at parse time and keeps `".."`). -/
structure PyPath where
  abs : Bool
  comps : List String
deriving DecidableEq, Repr

/-- `pathlib.Path(s)` for a POSIX path string. -/
def parsePath (s : String) : PyPath :=
  ⟨(match s.data with | '/' :: _ => true | _ => false),
    ((splitCharAux '/' s.data []).map String.mk).filter (fun c => ¬(c = "" ∨ c = "."))⟩

/-- `DOWNLOAD_ROOT = Path("downloads")` (main.py line 31). -/
def DOWNLOAD_ROOT : PyPath := ⟨false, ["downloads"]⟩

/-- The `/` join of two `pathlib` paths (right operand relative). -/
def joinP (a b : PyPath) : PyPath :=
  if b.abs then b else ⟨a.abs, a.comps ++ b.comps⟩

/-- `Path.resolve()` in a symlink-free world: make the path absolute against
the working directory and collapse `".."` components. -/
def resolveP (cwd : List String) (p : PyPath) : List String :=
  p.comps.foldl
    (fun acc c => if c = ".." then acc.dropLast else acc ++ [c])
    (if p.abs then [] else cwd)

/-- The observable directory state of the folder-resolution code: the
working directory (resolved components), the set of existing directories
(resolved components), their modification times, and today's dated folder
name (`"%Y.%m.%d - Images"`). -/
structure DirState where
  cwd : List String
  dirs : List (List String)
  mtime : List String → Nat
  today : String

/-- `get_daily_folder` (main.py lines 47-52): today's dated download folder
(the `mkdir` side effect is not needed by the claims under verification). -/
def get_daily_folder (st : DirState) : PyPath :=
  ⟨false, ["downloads", st.today]⟩

/-- The names of the direct subdirectories of `DOWNLOAD_ROOT`
(`DOWNLOAD_ROOT.iterdir()` filtered by `is_dir`), read from the resolved
directory set. -/
def subdirsOfRoot (st : DirState) : List String :=
  let rootRes := resolveP st.cwd DOWNLOAD_ROOT
  st.dirs.filterMap (fun d =>
    if d.take rootRes.length = rootRes ∧ d.length = rootRes.length + 1 then
      some (d.getLastD "")
    else none)

/-- Python `max(xs, key=k)`: the first element attaining the maximal key. -/
def maxByKey (k : String → Nat) (first : String) (rest : List String) : String :=
  rest.foldl (fun best c => if k best < k c then c else best) first

/-- `get_latest_folder` (main.py lines 55-60): the root subdirectory with the
largest modification time, or today's folder when the root has none. -/
def get_latest_folder (st : DirState) : PyPath :=
  match subdirsOfRoot st with
  | [] => get_daily_folder st
  | n :: rest =>
    ⟨false, ["downloads",
      maxByKey (fun name => st.mtime (resolveP st.cwd DOWNLOAD_ROOT ++ [name])) n rest]⟩

/-- `sanitize_target_folder` (main.py lines 63-75): ensure the requested
folder lives inside `DOWNLOAD_ROOT`; an out-of-root request silently falls
back to the latest folder (the `mkdir` side effect is not needed by the
claims under verification). -/
def sanitize_target_folder (st : DirState) (folder : Option String) : PyPath :=
  match folder with
  | none => get_latest_folder st
  | some f =>
    if f = "" then get_latest_folder st
    else
      let c0 := parsePath f
      let candidate := if c0.abs then c0 else joinP DOWNLOAD_ROOT c0
      if (resolveP st.cwd DOWNLOAD_ROOT).isPrefixOf (resolveP st.cwd candidate) then
        candidate
      else get_latest_folder st

/-- The result of running an external effect inside a `try` block:
success with a value, or a raised exception carrying `str(exc)`. -/
inductive Outcome (α : Type) where
  | ok : α → Outcome α
  | exn : String → Outcome α
deriving DecidableEq, Repr

/-- `prepare_csv` (main.py lines 336-368), as a function of the request's
file name and the outcomes of its two effectful steps
(`store_csv_upload` and `list_csv_columns`).  Returns the HTTP status and
the `error` field of the JSON body (`none` on success). -/
def prepare_csv (file : Option String)
    (storeRes : Outcome (String × String × String))
    (listRes : Outcome (List String)) : Nat × Option String :=
  match file with
  | none => (400, some "No CSV file supplied.")
  | some filename =>
    if filename = "" then (400, some "No CSV file supplied.")
    else if ¬(pyLower (pathSuffix (pathNameOf filename)) = ".csv") then
      (400, some "The uploaded file must be a CSV.")
    else
      match storeRes with
      | Outcome.exn msg => (500, some msg)
      | Outcome.ok _ =>
        match listRes with
        | Outcome.exn msg => (400, some msg)
        | Outcome.ok _ => (200, none)

/-- The outcome of `extract_image_records` as `process_csv` observes it:
success, a raised `ValueError`, or any other raised exception. -/
inductive ExtractOutcome where
  | ok : List (String × Option String) → Option String → ExtractOutcome
  | valueError : String → ExtractOutcome
  | exn : String → ExtractOutcome
deriving Repr

/-- The error-routing skeleton of `process_csv` (main.py lines 371-401), as a
function of the request token and the outcomes of `resolve_upload_token`
(`Outcome.exn` = `FileNotFoundError`) and `extract_image_records`.  Returns
the HTTP status and the `error` field up to the point where the download
pipeline takes over (status 200, error `none`); the pipeline itself is
verified separately on its component functions. -/
def process_csv (token : Option String) (resolveRes : Outcome String)
    (extractRes : ExtractOutcome) : Nat × Option String :=
  match token with
  | none => (400, some "Missing CSV token.")
  | some t =>
    if t = "" then (400, some "Missing CSV token.")
    else
      match resolveRes with
      | Outcome.exn msg => (400, some msg)
      | Outcome.ok _ =>
        match extractRes with
        | ExtractOutcome.valueError msg => (400, some msg)
        | ExtractOutcome.exn msg => (500, some msg)
        | ExtractOutcome.ok records _ =>
          if records = [] then
            (400, some "No valid image URLs found in the selected column.")
          else (200, none)

/-! ## The collision loop of the Filename Resolver -/

theorem searchFrom_spec (bad : Nat → Bool) :
    ∀ (f start : Nat), (∃ k, k < f ∧ bad (start + k) = false) →
      bad (searchFrom bad f start) = false ∧ start ≤ searchFrom bad f start ∧
        ∀ j, start ≤ j → j < searchFrom bad f start → bad j = true := by
  intro f
  induction f with
  | zero => intro start h; exact absurd h.choose_spec.1 (Nat.not_lt_zero _)
  | succ f ih =>
    intro start h
    by_cases hb : bad start
    · have hstep : searchFrom bad (f + 1) start = searchFrom bad f (start + 1) := by
        simp [searchFrom, hb]
      obtain ⟨k, hk, hkb⟩ := h
      have hk0 : k ≠ 0 := by
        intro h0; rw [h0, Nat.add_zero] at hkb; rw [hb] at hkb; cases hkb
      obtain ⟨k', rfl⟩ := Nat.exists_eq_succ_of_ne_zero hk0
      have ih' := ih (start + 1)
        ⟨k', Nat.lt_of_succ_lt_succ hk, by
          have : start + 1 + k' = start + (k' + 1) := by omega
          rw [this]; exact hkb⟩
      refine ⟨by rw [hstep]; exact ih'.1, ?_, ?_⟩
      · rw [hstep]; omega
      · intro j hj1 hj2
        rcases Nat.eq_or_lt_of_le hj1 with heq | hlt
        · rw [← heq]; exact hb
        · exact ih'.2.2 j hlt (by rw [← hstep]; exact hj2)
    · have hstep : searchFrom bad (f + 1) start = start := by
        simp [searchFrom, hb]
      rw [hstep]
      exact ⟨Bool.eq_false_iff.mpr hb, Nat.le_refl _, fun j h1 h2 => absurd (Nat.lt_of_le_of_lt h1 h2) (Nat.lt_irrefl _)⟩

/-! ## Decimal numerals: parsing round-trip and injectivity -/

/-- Parse a decimal digit list back to a number (proof tool for the
injectivity of `natRepr`). -/
def parseDigits (l : List Char) : Nat := l.foldl (fun a c => a * 10 + (c.toNat - 48)) 0

theorem digitChar_val (n : Nat) (h : n < 10) : (digitChar n).toNat - 48 = n := by
  interval_cases n <;> rfl

theorem parseDigits_append (l : List Char) (d : Char) :
    parseDigits (l ++ [d]) = parseDigits l * 10 + (d.toNat - 48) := by
  simp [parseDigits]

theorem natReprA_parse : ∀ f n, n < f → parseDigits (natReprA f n) = n := by
  intro f
  induction f with
  | zero => intro n h; exact absurd h (Nat.not_lt_zero _)
  | succ f ih =>
    intro n h
    by_cases hn : n < 10
    · simp [natReprA, hn, parseDigits, digitChar_val n hn]
    · have h10 : 10 ≤ n := Nat.le_of_not_lt hn
      have hpos : 0 < n := Nat.lt_of_lt_of_le (by omega) h10
      have hdiv : n / 10 < f := by
        have h1 : n / 10 < n := Nat.div_lt_self hpos (by omega)
        omega
      have hmod : n % 10 < 10 := Nat.mod_lt _ (by omega)
      simp only [natReprA, if_neg hn]
      rw [parseDigits_append, ih (n / 10) hdiv, digitChar_val _ hmod]
      omega

theorem natRepr_injective : Function.Injective natRepr := by
  intro a b h
  have hdata : natReprA (a + 1) a = natReprA (b + 1) b := congrArg String.data h
  have := congrArg parseDigits hdata
  rwa [natReprA_parse _ a (Nat.lt_succ_self a), natReprA_parse _ b (Nat.lt_succ_self b)] at this

theorem append_inner_cancel {a u t x y : List Char}
    (h : a ++ (u ++ (x ++ t)) = a ++ (u ++ (y ++ t))) : x = y :=
  List.append_cancel_right (List.append_cancel_left (List.append_cancel_left h))

theorem gupCandidate_injective (d fn : String) :
    Function.Injective (gupCandidate d fn) := by
  intro c1 c2 h
  rw [gupCandidate, gupCandidate, Pth.mk.injEq] at h
  obtain ⟨-, hbase⟩ := h
  revert hbase
  generalize gupStem fn = a
  generalize gupSuffix fn = t
  intro hbase
  have hdata := congrArg String.data hbase
  simp only [String.data_append, List.append_assoc] at hdata
  exact natRepr_injective (String.ext (append_inner_cancel hdata))

/-! ## Basic filesystem lemmas -/

theorem fsExists_true_iff {fs : FS} {p : Pth} : fsExists fs p = true ↔ p ∈ fsPaths fs := by
  simp [fsExists]

theorem fsExists_false_iff {fs : FS} {p : Pth} : fsExists fs p = false ↔ p ∉ fsPaths fs := by
  simp [fsExists]

theorem fsPaths_length (fs : FS) : (fsPaths fs).length = fs.length := by
  simp [fsPaths]

/-! ## The fuel of the collision loop suffices -/

theorem exists_free_counter (fs : FS) (d fn : String) :
    ∃ k, k < fs.length + 1 ∧ fsExists fs (gupCandidate d fn (1 + k)) = false := by
  by_contra hcon
  push_neg at hcon
  have hall : ∀ k, k < fs.length + 1 → gupCandidate d fn (1 + k) ∈ fsPaths fs := by
    intro k hk
    cases hcase : fsExists fs (gupCandidate d fn (1 + k)) with
    | false => exact absurd hcase (hcon k hk)
    | true => exact fsExists_true_iff.mp hcase
  set L := (List.range (fs.length + 1)).map (fun k => gupCandidate d fn (1 + k)) with hL
  have hinj : Function.Injective (fun k : Nat => gupCandidate d fn (1 + k)) := by
    intro x y hxy
    have := gupCandidate_injective d fn hxy
    omega
  have hnd : L.Nodup := (List.nodup_range _).map hinj
  have hsub : L ⊆ fsPaths fs := by
    intro p hp
    rw [hL, List.mem_map] at hp
    obtain ⟨k, hk, rfl⟩ := hp
    exact hall k (List.mem_range.mp hk)
  have hle := (List.subperm_of_subset hnd hsub).length_le
  rw [hL] at hle
  simp only [List.length_map, List.length_range, fsPaths_length] at hle
  omega

/-! ## Filename Resolver: specification lemmas -/

theorem get_unique_path_eq_self (fs : FS) (d fn : String)
    (h : fsExists fs ⟨d, gupSafeName fn⟩ = false) :
    get_unique_path fs d fn = ⟨d, gupSafeName fn⟩ := by
  rw [get_unique_path]
  simp only [h, Bool.false_eq_true, if_false]

theorem get_unique_path_loop_eq (fs : FS) (d fn : String)
    (h : fsExists fs ⟨d, gupSafeName fn⟩ = true) :
    get_unique_path fs d fn =
      gupCandidate d fn
        (searchFrom (fun c => fsExists fs (gupCandidate d fn c)) (fs.length + 1) 1) := by
  rw [get_unique_path]
  simp only [h, if_true]

theorem get_unique_path_spec (fs : FS) (d fn : String)
    (h : fsExists fs ⟨d, gupSafeName fn⟩ = true) :
    ∃ c, 1 ≤ c ∧ get_unique_path fs d fn = gupCandidate d fn c ∧
      fsExists fs (gupCandidate d fn c) = false ∧
      ∀ j, 1 ≤ j → j < c → fsExists fs (gupCandidate d fn j) = true := by
  obtain ⟨k, hk, hkf⟩ := exists_free_counter fs d fn
  have hspec := searchFrom_spec (fun c => fsExists fs (gupCandidate d fn c))
    (fs.length + 1) 1 ⟨k, hk, hkf⟩
  exact ⟨_, hspec.2.1, get_unique_path_loop_eq fs d fn h, hspec.1,
    fun j h1 h2 => hspec.2.2 j h1 h2⟩

theorem get_unique_path_fresh (fs : FS) (d fn : String) :
    fsExists fs (get_unique_path fs d fn) = false := by
  cases hc : fsExists fs ⟨d, gupSafeName fn⟩ with
  | false => rw [get_unique_path_eq_self fs d fn hc]; exact hc
  | true =>
    obtain ⟨c, _, heq, hfree, _⟩ := get_unique_path_spec fs d fn hc
    rw [heq]; exact hfree

theorem get_unique_path_dir (fs : FS) (d fn : String) :
    (get_unique_path fs d fn).dir = d := by
  cases hc : fsExists fs ⟨d, gupSafeName fn⟩ with
  | false => rw [get_unique_path_eq_self fs d fn hc]
  | true =>
    obtain ⟨c, _, heq, _, _⟩ := get_unique_path_spec fs d fn hc
    rw [heq]; rfl

theorem build_output_fresh (fs : FS) (sp : Pth) (ext : String) (inc : Bool)
    (sku : Option String) :
    fsExists fs (build_output_filename fs sp ext inc sku) = false := by
  simp only [build_output_filename]
  exact get_unique_path_fresh fs sp.dir _

theorem build_output_dir (fs : FS) (sp : Pth) (ext : String) (inc : Bool)
    (sku : Option String) :
    (build_output_filename fs sp ext inc sku).dir = sp.dir := by
  simp only [build_output_filename]
  exact get_unique_path_dir fs sp.dir _

/-! ## Filesystem membership and read lemmas -/

theorem mem_fsPaths_fsRemove {fs : FS} {p q : Pth} :
    q ∈ fsPaths (fsRemove fs p) ↔ q ∈ fsPaths fs ∧ q ≠ p := by
  simp only [fsPaths, fsRemove, List.mem_map, List.mem_filter, decide_eq_true_eq]
  constructor
  · rintro ⟨e, ⟨he, hne⟩, rfl⟩
    exact ⟨⟨e, he, rfl⟩, hne⟩
  · rintro ⟨⟨e, he, rfl⟩, hne⟩
    exact ⟨e, ⟨he, hne⟩, rfl⟩

theorem mem_fsPaths_fsWrite {fs : FS} {p q : Pth} {b : Nat} :
    q ∈ fsPaths (fsWrite fs p b) ↔ q = p ∨ (q ∈ fsPaths fs ∧ q ≠ p) := by
  have hcons : fsPaths (fsWrite fs p b) = p :: fsPaths (fsRemove fs p) := rfl
  rw [hcons, List.mem_cons, mem_fsPaths_fsRemove]

theorem not_mem_fsPaths_fsRemove_self {fs : FS} {p : Pth} :
    p ∉ fsPaths (fsRemove fs p) := by
  rw [mem_fsPaths_fsRemove]
  rintro ⟨-, h⟩
  exact h rfl

theorem fsRead_eq_none_iff {fs : FS} {q : Pth} :
    fsRead fs q = none ↔ q ∉ fsPaths fs := by
  simp only [fsRead, Option.map_eq_none', List.find?_eq_none, decide_eq_true_eq,
    fsPaths, List.mem_map]
  constructor
  · rintro h ⟨e, he, rfl⟩
    exact h e he rfl
  · rintro h e he hq
    exact h ⟨e, he, hq⟩

theorem mem_fsPaths_of_fsRead_some {fs : FS} {q : Pth} {b : Nat}
    (h : fsRead fs q = some b) : q ∈ fsPaths fs := by
  by_contra hq
  rw [← fsRead_eq_none_iff] at hq
  rw [hq] at h
  cases h

theorem fsRead_fsWrite_self (fs : FS) (p : Pth) (b : Nat) :
    fsRead (fsWrite fs p b) p = some b := by
  simp only [fsRead, fsWrite]
  rw [List.find?_cons_of_pos _ (by simp)]
  rfl

theorem find?_filter_ne (p q : Pth) (h : q ≠ p) :
    ∀ l : List (Pth × Nat),
      (l.filter (fun e => decide (e.1 ≠ p))).find? (fun e => decide (e.1 = q)) =
        l.find? (fun e => decide (e.1 = q)) := by
  intro l
  induction l with
  | nil => rfl
  | cons e rest ih =>
    by_cases hep : e.1 = p
    · rw [List.filter_cons_of_neg (by simp [hep]), ih,
        List.find?_cons_of_neg _ (by simp [hep]; exact fun hh => h hh.symm)]
    · rw [List.filter_cons_of_pos (by simp [hep])]
      by_cases hq : e.1 = q
      · rw [List.find?_cons_of_pos _ (by simp [hq]), List.find?_cons_of_pos _ (by simp [hq])]
      · rw [List.find?_cons_of_neg _ (by simp [hq]), List.find?_cons_of_neg _ (by simp [hq]), ih]

theorem fsRead_fsRemove_ne (fs : FS) (p q : Pth) (h : q ≠ p) :
    fsRead (fsRemove fs p) q = fsRead fs q := by
  simp only [fsRead, fsRemove]
  rw [find?_filter_ne p q h fs]

theorem fsRead_fsWrite_ne (fs : FS) (p q : Pth) (b : Nat) (h : q ≠ p) :
    fsRead (fsWrite fs p b) q = fsRead fs q := by
  have h1 : fsRead (fsWrite fs p b) q = fsRead (fsRemove fs p) q := by
    simp only [fsRead, fsWrite]
    rw [List.find?_cons_of_neg _ (by simp; exact fun hh => h hh.symm)]
  rw [h1, fsRead_fsRemove_ne fs p q h]

/-! ## Image Normalizer: branch equations -/

theorem convert_png_keep_noenh (ops : PixOps) (fs : FS) (p : Pth) (q : Nat)
    (sku : Option String) (hpng : pyLower (pathSuffix p.base) = ".png") :
    convert_image_for_web ops fs p q true false sku = (fs, some p) := by
  simp only [convert_image_for_web, hpng, and_self, if_true]
  simp

theorem convert_png_keep_enh_some (ops : PixOps) (fs : FS) (p : Pth) (q : Nat)
    (sku : Option String) (b : Nat)
    (hpng : pyLower (pathSuffix p.base) = ".png") (hread : fsRead fs p = some b) :
    convert_image_for_web ops fs p q true true sku =
      (fsWrite (fsRemove fs p) (build_output_filename fs p ".png" true sku) b,
        some (build_output_filename fs p ".png" true sku)) := by
  simp only [convert_image_for_web, hpng, and_self, if_true, hread]

theorem convert_png_keep_enh_none (ops : PixOps) (fs : FS) (p : Pth) (q : Nat)
    (sku : Option String)
    (hpng : pyLower (pathSuffix p.base) = ".png") (hread : fsRead fs p = none) :
    convert_image_for_web ops fs p q true true sku = (fs, none) := by
  simp only [convert_image_for_web, hpng, and_self, if_true, hread]

theorem convert_main_read_none (ops : PixOps) (fs : FS) (p : Pth) (q : Nat)
    (kp enh : Bool) (sku : Option String)
    (hc : ¬(pyLower (pathSuffix p.base) = ".png" ∧ kp = true))
    (hread : fsRead fs p = none) :
    convert_image_for_web ops fs p q kp enh sku = (fs, none) := by
  simp only [convert_image_for_web, if_neg hc, hread]

theorem convert_main_decode_none (ops : PixOps) (fs : FS) (p : Pth) (q : Nat)
    (kp enh : Bool) (sku : Option String) (blob : Nat)
    (hc : ¬(pyLower (pathSuffix p.base) = ".png" ∧ kp = true))
    (hread : fsRead fs p = some blob) (hdec : ops.decode blob = none) :
    convert_image_for_web ops fs p q kp enh sku = (fs, none) := by
  simp only [convert_image_for_web, if_neg hc, hread, hdec]

theorem convert_main_encode_none (ops : PixOps) (fs : FS) (p : Pth) (q : Nat)
    (kp enh : Bool) (sku : Option String) (blob : Nat) (img : Img)
    (hc : ¬(pyLower (pathSuffix p.base) = ".png" ∧ kp = true))
    (hread : fsRead fs p = some blob) (hdec : ops.decode blob = some img)
    (henc : ops.encode (flatten ops img) q = none) :
    convert_image_for_web ops fs p q kp enh sku = (fs, none) := by
  simp only [convert_image_for_web, if_neg hc, hread, hdec, henc]

theorem convert_main_success (ops : PixOps) (fs : FS) (p : Pth) (q : Nat)
    (kp enh : Bool) (sku : Option String) (blob : Nat) (img : Img) (out : Nat)
    (hc : ¬(pyLower (pathSuffix p.base) = ".png" ∧ kp = true))
    (hread : fsRead fs p = some blob) (hdec : ops.decode blob = some img)
    (henc : ops.encode (flatten ops img) q = some out) :
    convert_image_for_web ops fs p q kp enh sku =
      (if build_output_filename fs p ".jpg" enh (if enh then sku else none) ≠ p ∧
          fsExists
            (fsWrite fs
              (build_output_filename fs p ".jpg" enh (if enh then sku else none)) out) p then
        fsRemove
          (fsWrite fs
            (build_output_filename fs p ".jpg" enh (if enh then sku else none)) out) p
      else
        fsWrite fs (build_output_filename fs p ".jpg" enh (if enh then sku else none)) out,
       some (build_output_filename fs p ".jpg" enh (if enh then sku else none))) := by
  simp only [convert_image_for_web, if_neg hc, hread, hdec, henc]

/-! ## Image Normalizer: derived facts -/

theorem convert_success_moves (ops : PixOps) (fs : FS) (p : Pth) (q : Nat)
    (kp enh : Bool) (sku : Option String) (fs2 : FS) (tgt : Pth)
    (hres : convert_image_for_web ops fs p q kp enh sku = (fs2, some tgt))
    (hne : tgt ≠ p) :
    p ∉ fsPaths fs2 ∧ tgt ∈ fsPaths fs2 := by
  by_cases hc : pyLower (pathSuffix p.base) = ".png" ∧ kp = true
  · obtain ⟨hpng, hkp⟩ := hc
    subst hkp
    cases enh with
    | false =>
      rw [convert_png_keep_noenh ops fs p q sku hpng] at hres
      injection hres with h1 h2
      injection h2 with h3
      exact absurd h3 (fun hh => hne hh.symm)
    | true =>
      cases hread : fsRead fs p with
      | none =>
        rw [convert_png_keep_enh_none ops fs p q sku hpng hread] at hres
        injection hres with h1 h2
        exact Option.noConfusion h2
      | some b =>
        rw [convert_png_keep_enh_some ops fs p q sku b hpng hread] at hres
        injection hres with h1 h2
        injection h2 with h3
        subst h3
        subst h1
        constructor
        · rw [mem_fsPaths_fsWrite]
          rintro (h | ⟨hmem, -⟩)
          · exact hne h.symm
          · exact not_mem_fsPaths_fsRemove_self hmem
        · rw [mem_fsPaths_fsWrite]
          exact Or.inl rfl
  · cases hread : fsRead fs p with
    | none =>
      rw [convert_main_read_none ops fs p q kp enh sku hc hread] at hres
      injection hres with h1 h2
      exact Option.noConfusion h2
    | some blob =>
      cases hdec : ops.decode blob with
      | none =>
        rw [convert_main_decode_none ops fs p q kp enh sku blob hc hread hdec] at hres
        injection hres with h1 h2
        exact Option.noConfusion h2
      | some img =>
        cases henc : ops.encode (flatten ops img) q with
        | none =>
          rw [convert_main_encode_none ops fs p q kp enh sku blob img hc hread hdec henc] at hres
          injection hres with h1 h2
          exact Option.noConfusion h2
        | some out =>
          rw [convert_main_success ops fs p q kp enh sku blob img out hc hread hdec henc] at hres
          injection hres with h1 h2
          injection h2 with h3
          rw [h3] at h1
          by_cases hex : fsExists (fsWrite fs tgt out) p = true
          · rw [if_pos ⟨hne, hex⟩] at h1
            subst h1
            refine ⟨not_mem_fsPaths_fsRemove_self, ?_⟩
            rw [mem_fsPaths_fsRemove]
            refine ⟨?_, hne⟩
            rw [mem_fsPaths_fsWrite]
            exact Or.inl rfl
          · rw [if_neg (fun hand => hex hand.2)] at h1
            subst h1
            constructor
            · intro hm
              exact hex (fsExists_true_iff.mpr hm)
            · rw [mem_fsPaths_fsWrite]
              exact Or.inl rfl

theorem convert_failure_unchanged (ops : PixOps) (fs : FS) (p : Pth) (q : Nat)
    (kp enh : Bool) (sku : Option String) (fs2 : FS)
    (hres : convert_image_for_web ops fs p q kp enh sku = (fs2, none)) :
    fs2 = fs := by
  by_cases hc : pyLower (pathSuffix p.base) = ".png" ∧ kp = true
  · obtain ⟨hpng, hkp⟩ := hc
    subst hkp
    cases enh with
    | false =>
      rw [convert_png_keep_noenh ops fs p q sku hpng] at hres
      injection hres with h1 h2
      exact Option.noConfusion h2
    | true =>
      cases hread : fsRead fs p with
      | none =>
        rw [convert_png_keep_enh_none ops fs p q sku hpng hread] at hres
        injection hres with h1 h2
        exact h1.symm
      | some b =>
        rw [convert_png_keep_enh_some ops fs p q sku b hpng hread] at hres
        injection hres with h1 h2
        exact Option.noConfusion h2
  · cases hread : fsRead fs p with
    | none =>
      rw [convert_main_read_none ops fs p q kp enh sku hc hread] at hres
      injection hres with h1 h2
      exact h1.symm
    | some blob =>
      cases hdec : ops.decode blob with
      | none =>
        rw [convert_main_decode_none ops fs p q kp enh sku blob hc hread hdec] at hres
        injection hres with h1 h2
        exact h1.symm
      | some img =>
        cases henc : ops.encode (flatten ops img) q with
        | none =>
          rw [convert_main_encode_none ops fs p q kp enh sku blob img hc hread hdec henc] at hres
          injection hres with h1 h2
          exact h1.symm
        | some out =>
          rw [convert_main_success ops fs p q kp enh sku blob img out hc hread hdec henc] at hres
          injection hres with h1 h2
          exact Option.noConfusion h2

theorem convert_main_target_new (ops : PixOps) (fs : FS) (p : Pth) (q : Nat)
    (kp enh : Bool) (sku : Option String) (fs2 : FS) (tgt : Pth)
    (hc : ¬(pyLower (pathSuffix p.base) = ".png" ∧ kp = true))
    (hres : convert_image_for_web ops fs p q kp enh sku = (fs2, some tgt)) :
    tgt ≠ p ∧ fsExists fs tgt = false ∧ p ∈ fsPaths fs := by
  cases hread : fsRead fs p with
  | none =>
    rw [convert_main_read_none ops fs p q kp enh sku hc hread] at hres
    injection hres with h1 h2
    exact Option.noConfusion h2
  | some blob =>
    have hmem : p ∈ fsPaths fs := mem_fsPaths_of_fsRead_some hread
    cases hdec : ops.decode blob with
    | none =>
      rw [convert_main_decode_none ops fs p q kp enh sku blob hc hread hdec] at hres
      injection hres with h1 h2
      exact Option.noConfusion h2
    | some img =>
      cases henc : ops.encode (flatten ops img) q with
      | none =>
        rw [convert_main_encode_none ops fs p q kp enh sku blob img hc hread hdec henc] at hres
        injection hres with h1 h2
        exact Option.noConfusion h2
      | some out =>
        rw [convert_main_success ops fs p q kp enh sku blob img out hc hread hdec henc] at hres
        injection hres with h1 h2
        injection h2 with h3
        subst h3
        have hfresh := build_output_fresh fs p ".jpg" enh (if enh then sku else none)
        refine ⟨?_, hfresh, hmem⟩
        intro heq
        rw [heq] at hfresh
        rw [fsExists_false_iff] at hfresh
        exact hfresh hmem

/-! ## Concrete fixtures for witnesses -/

/-- A concrete PIL oracle: every blob decodes as a non-transparent RGB image,
mode conversions are identities, and JPEG encoding succeeds, bumping the
blob. -/
def pixFix : PixOps :=
  ⟨fun b => some ⟨"RGB", b⟩, fun i _ => i, fun i => i, fun _ i => i,
    fun i _ => some (i.data + 1)⟩

/-! ## Claims -/

/-- C1: after every successful conversion by the Image Normalizer whose
destination differs from the source, the source file is deleted and only the
converted file remains; in particular, normalizing an existing
non-transparent JPEG with `keep_png = false` leaves exactly one output file,
with a `.jpg` extension, and the original removed. -/
theorem c1_success_deletes_source :
    (∀ (ops : PixOps) (fs : FS) (p : Pth) (q : Nat) (kp enh : Bool)
        (sku : Option String) (fs2 : FS) (tgt : Pth),
      convert_image_for_web ops fs p q kp enh sku = (fs2, some tgt) →
      tgt ≠ p →
      p ∉ fsPaths fs2 ∧ tgt ∈ fsPaths fs2) ∧
    convert_image_for_web pixFix [(⟨"d", "photo.jpg"⟩, 7)] ⟨"d", "photo.jpg"⟩
        95 false false none =
      ([(⟨"d", "photo_1.jpg"⟩, 8)], some ⟨"d", "photo_1.jpg"⟩) ∧
    pathSuffix "photo_1.jpg" = ".jpg" := by
  refine ⟨?_, by decide, by decide⟩
  intro ops fs p q kp enh sku fs2 tgt hres hne
  exact convert_success_moves ops fs p q kp enh sku fs2 tgt hres hne

/-- Witness for C1: the general part applied to the concrete JPEG scenario. -/
theorem c1_success_deletes_source_witness :
    (⟨"d", "photo.jpg"⟩ : Pth) ∉ fsPaths [(⟨"d", "photo_1.jpg"⟩, 8)] ∧
      (⟨"d", "photo_1.jpg"⟩ : Pth) ∈ fsPaths [(⟨"d", "photo_1.jpg"⟩, 8)] :=
  c1_success_deletes_source.1 pixFix [(⟨"d", "photo.jpg"⟩, 7)] ⟨"d", "photo.jpg"⟩
    95 false false none [(⟨"d", "photo_1.jpg"⟩, 8)] ⟨"d", "photo_1.jpg"⟩
    (by decide) (by decide)

/-- C2: the Batch Post-Processor handles jobs strictly in input order; a
successful job contributes the resulting file's name to the processed list,
a failed job contributes the original file's name to the failed list
processed from an unchanged filesystem (so no job's failure affects any
other job), and both lists preserve the input order. -/
theorem c2_batch_order_independence :
    (∀ (ops : PixOps) (fs : FS) (q : Nat) (kp enh : Bool),
      post_process_files ops fs [] q kp enh = (fs, [], [])) ∧
    (∀ (ops : PixOps) (fs : FS) (q : Nat) (kp enh : Bool) (p : Pth)
        (sku : Option String) (rest : List (Pth × Option String)) (fs1 : FS) (r : Pth),
      convert_image_for_web ops fs p q kp enh sku = (fs1, some r) →
      post_process_files ops fs ((p, sku) :: rest) q kp enh =
        ((post_process_files ops fs1 rest q kp enh).1,
         r.base :: (post_process_files ops fs1 rest q kp enh).2.1,
         (post_process_files ops fs1 rest q kp enh).2.2)) ∧
    (∀ (ops : PixOps) (fs : FS) (q : Nat) (kp enh : Bool) (p : Pth)
        (sku : Option String) (rest : List (Pth × Option String)) (fs1 : FS),
      convert_image_for_web ops fs p q kp enh sku = (fs1, none) →
      post_process_files ops fs ((p, sku) :: rest) q kp enh =
        ((post_process_files ops fs rest q kp enh).1,
         (post_process_files ops fs rest q kp enh).2.1,
         p.base :: (post_process_files ops fs rest q kp enh).2.2)) := by
  refine ⟨fun ops fs q kp enh => rfl, ?_, ?_⟩
  · intro ops fs q kp enh p sku rest fs1 r hconv
    simp only [post_process_files, hconv]
  · intro ops fs q kp enh p sku rest fs1 hconv
    have hfs : fs1 = fs := convert_failure_unchanged ops fs p q kp enh sku fs1 hconv
    subst hfs
    simp only [post_process_files, hconv]

/-- Witness for C2: one successful job followed by one failing job (the file
is missing), processed in order from a one-file filesystem. -/
theorem c2_batch_order_independence_witness :
    post_process_files pixFix [(⟨"d", "a.jpg"⟩, 3)]
        ((⟨"d", "a.jpg"⟩, none) :: [(⟨"d", "missing.jpg"⟩, none)]) 95 false false =
      ((post_process_files pixFix [(⟨"d", "a_1.jpg"⟩, 4)]
          [(⟨"d", "missing.jpg"⟩, none)] 95 false false).1,
       "a_1.jpg" ::
         (post_process_files pixFix [(⟨"d", "a_1.jpg"⟩, 4)]
           [(⟨"d", "missing.jpg"⟩, none)] 95 false false).2.1,
       (post_process_files pixFix [(⟨"d", "a_1.jpg"⟩, 4)]
         [(⟨"d", "missing.jpg"⟩, none)] 95 false false).2.2) :=
  c2_batch_order_independence.2.1 pixFix [(⟨"d", "a.jpg"⟩, 3)] 95 false false
    ⟨"d", "a.jpg"⟩ none [(⟨"d", "missing.jpg"⟩, none)] [(⟨"d", "a_1.jpg"⟩, 4)]
    ⟨"d", "a_1.jpg"⟩ (by decide)

/-- C10: in the JPEG-encoding branch, the destination resolved by the
Filename Resolver never exists at resolution time, so the returned
destination differs from the (existing) source and the source-deletion step
fires on every successful conversion of that branch; concretely, an existing
`photo.jpg` converts to `photo_1.jpg`, never to itself. -/
theorem c10_jpeg_branch_no_overwrite :
    (∀ (ops : PixOps) (fs : FS) (p : Pth) (q : Nat) (kp enh : Bool)
        (sku : Option String) (fs2 : FS) (tgt : Pth),
      ¬(pyLower (pathSuffix p.base) = ".png" ∧ kp = true) →
      convert_image_for_web ops fs p q kp enh sku = (fs2, some tgt) →
      tgt ≠ p ∧ p ∈ fsPaths fs ∧ fsExists fs tgt = false ∧
        p ∉ fsPaths fs2 ∧ tgt ∈ fsPaths fs2) ∧
    (convert_image_for_web pixFix [(⟨"d", "photo.jpg"⟩, 7)] ⟨"d", "photo.jpg"⟩
        95 false false none).2 = some ⟨"d", "photo_1.jpg"⟩ ∧
    (⟨"d", "photo_1.jpg"⟩ : Pth) ≠ ⟨"d", "photo.jpg"⟩ := by
  refine ⟨?_, by decide, by decide⟩
  intro ops fs p q kp enh sku fs2 tgt hc hres
  obtain ⟨hne, hfresh, hmem⟩ := convert_main_target_new ops fs p q kp enh sku fs2 tgt hc hres
  obtain ⟨hgone, hthere⟩ := convert_success_moves ops fs p q kp enh sku fs2 tgt hres hne
  exact ⟨hne, hmem, hfresh, hgone, hthere⟩

/-- Witness for C10: the general part applied to the concrete
`photo.jpg` scenario. -/
theorem c10_jpeg_branch_no_overwrite_witness :
    (⟨"d", "photo_1.jpg"⟩ : Pth) ≠ ⟨"d", "photo.jpg"⟩ ∧
      (⟨"d", "photo.jpg"⟩ : Pth) ∈ fsPaths [(⟨"d", "photo.jpg"⟩, 7)] ∧
      fsExists [(⟨"d", "photo.jpg"⟩, 7)] ⟨"d", "photo_1.jpg"⟩ = false ∧
      (⟨"d", "photo.jpg"⟩ : Pth) ∉ fsPaths [(⟨"d", "photo_1.jpg"⟩, 8)] ∧
      (⟨"d", "photo_1.jpg"⟩ : Pth) ∈ fsPaths [(⟨"d", "photo_1.jpg"⟩, 8)] :=
  c10_jpeg_branch_no_overwrite.1 pixFix [(⟨"d", "photo.jpg"⟩, 7)]
    ⟨"d", "photo.jpg"⟩ 95 false false none [(⟨"d", "photo_1.jpg"⟩, 8)]
    ⟨"d", "photo_1.jpg"⟩ (by decide) (by decide)

/-- C3 (counterexample): in the directory `{photo_1.jpg}`, resolving
`photo.jpg` returns `photo.jpg` as-is; after creating that file, the next
call returns `photo_2.jpg`, not the name with suffix `_1` claimed. -/
theorem c3_counterexample :
    get_unique_path [(⟨"d", "photo_1.jpg"⟩, 0)] "d" "photo.jpg" =
      ⟨"d", "photo.jpg"⟩ ∧
    get_unique_path (fsWrite [(⟨"d", "photo_1.jpg"⟩, 0)] ⟨"d", "photo.jpg"⟩ 1)
        "d" "photo.jpg" = ⟨"d", "photo_2.jpg"⟩ ∧
    (⟨"d", "photo_2.jpg"⟩ : Pth) ≠ ⟨"d", "photo_1.jpg"⟩ := by
  exact ⟨by decide, by decide, by decide⟩

/-- C3 (amended): the Filename Resolver never returns an existing path; it
is a pure function of the directory state; an unused sanitized name is
returned as-is; on collision it returns the candidate with the least unused
counter `c ≥ 1`, every smaller counter being taken; and after the first
returned (fresh) file is created, the next call returns the `_1` candidate
provided that candidate is not itself taken. -/
theorem c3_resolver_amended :
    (∀ (fs : FS) (d n : String), fsExists fs (get_unique_path fs d n) = false) ∧
    (∀ (fs : FS) (d n : String), get_unique_path fs d n = get_unique_path fs d n) ∧
    (∀ (fs : FS) (d n : String), fsExists fs ⟨d, gupSafeName n⟩ = false →
      get_unique_path fs d n = ⟨d, gupSafeName n⟩) ∧
    (∀ (fs : FS) (d n : String), fsExists fs ⟨d, gupSafeName n⟩ = true →
      ∃ c, 1 ≤ c ∧ get_unique_path fs d n = gupCandidate d n c ∧
        fsExists fs (gupCandidate d n c) = false ∧
        ∀ j, 1 ≤ j → j < c → fsExists fs (gupCandidate d n j) = true) ∧
    (∀ (fs : FS) (d n : String) (b : Nat),
      fsExists fs ⟨d, gupSafeName n⟩ = false →
      fsExists (fsWrite fs ⟨d, gupSafeName n⟩ b) (gupCandidate d n 1) = false →
      get_unique_path (fsWrite fs ⟨d, gupSafeName n⟩ b) d n = gupCandidate d n 1) := by
  refine ⟨get_unique_path_fresh, fun fs d n => rfl, get_unique_path_eq_self,
    get_unique_path_spec, ?_⟩
  intro fs d n b hfresh h1
  have hex : fsExists (fsWrite fs ⟨d, gupSafeName n⟩ b) ⟨d, gupSafeName n⟩ = true := by
    rw [fsExists_true_iff, mem_fsPaths_fsWrite]
    exact Or.inl rfl
  rw [get_unique_path_loop_eq _ d n hex]
  congr 1
  simp only [searchFrom, h1, Bool.false_eq_true, if_false]

/-- Witness for C3 (amended): creating the first resolved file in an empty
directory and resolving again yields the `_1` candidate. -/
theorem c3_resolver_amended_witness :
    get_unique_path (fsWrite [] ⟨"d", gupSafeName "photo.jpg"⟩ 0) "d" "photo.jpg" =
      gupCandidate "d" "photo.jpg" 1 :=
  c3_resolver_amended.2.2.2.2 [] "d" "photo.jpg" 0 (by decide) (by decide)

/-- The HTTP world of the three-job batch of C5: the second URL fails
(for instance with HTTP 404 at `raise_for_status`), the others succeed. -/
def net404 : String → Option Nat :=
  fun u => if u = "http://x/b.jpg" then none else some 1

/-- C5: the Downloader processes records sequentially; a failing record
(any raised exception) only marks its own original URL as failed, leaves the
filesystem unchanged, and does not disturb the remaining records; downloaded
pairs and failed URLs each appear in input order; in a 3-job batch whose
second URL fails, jobs 1 and 3 are downloaded in order and job 2's URL is
the only failure. -/
theorem c5_downloader_order_and_failures :
    (∀ (net : String → Option Nat) (fs : FS) (folder : String),
      download_images net fs [] folder = (fs, [], [])) ∧
    (∀ (net : String → Option Nat) (fs : FS) (folder url : String)
        (sku : Option String) (rest : List (String × Option String)) (body : Nat),
      net url = some body →
      download_images net fs ((url, sku) :: rest) folder =
        ((download_images net
            (fsWrite fs (get_unique_path fs folder (urlFileName url)) body) rest folder).1,
         (get_unique_path fs folder (urlFileName url), sku) ::
           (download_images net
             (fsWrite fs (get_unique_path fs folder (urlFileName url)) body) rest folder).2.1,
         (download_images net
           (fsWrite fs (get_unique_path fs folder (urlFileName url)) body) rest folder).2.2)) ∧
    (∀ (net : String → Option Nat) (fs : FS) (folder url : String)
        (sku : Option String) (rest : List (String × Option String)),
      net url = none →
      download_images net fs ((url, sku) :: rest) folder =
        ((download_images net fs rest folder).1,
         (download_images net fs rest folder).2.1,
         url :: (download_images net fs rest folder).2.2)) ∧
    download_images net404 []
        [("http://x/a.jpg", some "S1"), ("http://x/b.jpg", some "S2"),
          ("http://x/c.jpg", some "S3")] "f" =
      ([(⟨"f", "c.jpg"⟩, 1), (⟨"f", "a.jpg"⟩, 1)],
       [(⟨"f", "a.jpg"⟩, some "S1"), (⟨"f", "c.jpg"⟩, some "S3")],
       ["http://x/b.jpg"]) := by
  refine ⟨fun net fs folder => rfl, ?_, ?_, by decide⟩
  · intro net fs folder url sku rest body hnet
    simp only [download_images, hnet]
  · intro net fs folder url sku rest hnet
    simp only [download_images, hnet]

/-- Witness for C5: the failure equation applied to the failing URL of the
concrete batch. -/
theorem c5_downloader_order_and_failures_witness :
    download_images net404 [] [("http://x/b.jpg", some "S2")] "f" =
      ((download_images net404 [] [] "f").1,
       (download_images net404 [] [] "f").2.1,
       "http://x/b.jpg" :: (download_images net404 [] [] "f").2.2) :=
  c5_downloader_order_and_failures.2.2.1 net404 [] "f" "http://x/b.jpg"
    (some "S2") [] (by decide)

/-- A `filterMap` whose function is a guarded `some` is a `map` after
`filter`. -/
theorem filterMap_eq_map_filter {α β : Type} (f : α → Option β) (p : α → Bool)
    (g : α → β) (h : ∀ a, f a = if p a then some (g a) else none) :
    ∀ l : List α, l.filterMap f = (l.filter p).map g := by
  intro l
  induction l with
  | nil => rfl
  | cons a rest ih =>
    by_cases hp : p a = true
    · simp [List.filterMap_cons, List.filter_cons, h a, hp, ih]
    · simp [List.filterMap_cons, List.filter_cons, h a, hp, ih]

/-- The CSV of C4's concrete example: columns `["1000image","sku"]`, one
valid row, one row whose URL cell is an empty string, one row whose URL cell
is `NaN`. -/
def csvEx : Csv :=
  ⟨["1000image", "sku"],
    [[some "http://x/a.jpg", some "S1"], [some "", some "S2"], [none, some "S3"]]⟩

/-- C4: the CSV Record Extractor errors exactly when the requested column is
absent; otherwise it refines the spec's description — the first header
matching "sku" case-insensitively after trimming is the SKU column, and the
records are, in row order, the trimmed URL and trimmed-or-none SKU of
exactly the rows whose target cell is present and non-empty after trimming;
on the example CSV it returns exactly one record. -/
theorem c4_extractor_refines_spec :
    (∀ (csv : Csv) (column : String),
      extract_image_records csv column = extract_records_spec csv column) ∧
    (∀ (csv : Csv) (column : String),
      (∃ msg, extract_image_records csv column = Except.error msg) ↔
        ¬(column ∈ csv.header)) ∧
    extract_image_records csvEx "1000image" =
      Except.ok ([("http://x/a.jpg", some "S1")], some "sku") := by
  refine ⟨?_, ?_, rfl⟩
  · intro csv column
    rw [extract_image_records, extract_records_spec]
    by_cases hcol : column ∈ csv.header
    · rw [if_neg (not_not_intro hcol), if_neg (not_not_intro hcol)]
      refine congrArg Except.ok (congrArg (fun r => (r, _)) ?_)
      refine filterMap_eq_map_filter _ _ _ ?_ csv.rows
      intro row
      cases hc : cellAt csv.header row column with
      | none => simp [hc]
      | some raw =>
        by_cases hurl : pyStrip raw = ""
        · simp [hc, hurl]
        · simp only [hc, hurl, if_neg hurl, decide_not]
          cases hsc : csv.header.find? (fun c => pyLower (pyStrip c) = "sku") with
          | none => simp [hurl]
          | some sc =>
            cases hcell : cellAt csv.header row sc with
            | none => simp [hurl, hcell]
            | some raw_sku => simp [hurl, hcell]
    · rw [if_pos hcol, if_pos hcol]
  · intro csv column
    constructor
    · rintro ⟨msg, hmsg⟩
      by_cases hcol : column ∈ csv.header
      · rw [extract_image_records, if_neg (not_not_intro hcol)] at hmsg
        cases hmsg
      · exact hcol
    · intro hcol
      exact ⟨_, by rw [extract_image_records, if_pos hcol]⟩

/-! ## Folder resolution lemmas -/

theorem isPrefixOf_append (l t : List String) : l.isPrefixOf (l ++ t) = true := by
  induction l with
  | nil => simp [List.isPrefixOf]
  | cons a rest ih => simp [List.isPrefixOf, ih]

theorem resolveP_no_dotdot (cwd : List String) (comps : List String)
    (h : ¬(".." ∈ comps)) : resolveP cwd ⟨false, comps⟩ = cwd ++ comps := by
  show comps.foldl _ cwd = cwd ++ comps
  induction comps generalizing cwd with
  | nil => simp
  | cons c rest ih =>
    have hc : ¬(c = "..") := fun hcc => h (by rw [hcc]; exact List.mem_cons_self _ _)
    have hrest : ¬(".." ∈ rest) := fun hr => h (List.mem_cons_of_mem _ hr)
    show rest.foldl _ (if c = ".." then cwd.dropLast else cwd ++ [c]) = cwd ++ (c :: rest)
    rw [if_neg hc, ih (cwd ++ [c]) hrest]
    simp

theorem maxByKey_mem (k : String → Nat) :
    ∀ (rest : List String) (first : String), maxByKey k first rest ∈ first :: rest := by
  intro rest
  induction rest with
  | nil => intro first; exact List.mem_singleton.mpr rfl
  | cons c cs ih =>
    intro first
    have hstep : maxByKey k first (c :: cs) =
        maxByKey k (if k first < k c then c else first) cs := rfl
    rw [hstep]
    rcases List.mem_cons.mp (ih (if k first < k c then c else first)) with h | h
    · rw [h]
      by_cases hk : k first < k c
      · rw [if_pos hk]
        exact List.mem_cons_of_mem _ (List.mem_cons_self _ _)
      · rw [if_neg hk]
        exact List.mem_cons_self _ _
    · exact List.mem_cons_of_mem _ (List.mem_cons_of_mem _ h)

theorem getLastD_mem {α : Type} : ∀ (l : List α) (a : α), ¬(l = []) → l.getLastD a ∈ l := by
  intro l
  induction l with
  | nil => intro a h; exact absurd rfl h
  | cons x xs ih =>
    intro a _
    by_cases hxs : xs = []
    · subst hxs
      simp [List.getLastD]
    · rw [List.getLastD_cons]
      exact List.mem_cons_of_mem _ (ih x hxs)

theorem subdir_name_ne_dotdot (st : DirState)
    (hdirs : ∀ d ∈ st.dirs, ¬(".." ∈ d)) :
    ∀ n ∈ subdirsOfRoot st, ¬(n = "..") := by
  intro n hn heq
  simp only [subdirsOfRoot, List.mem_filterMap] at hn
  obtain ⟨d, hd, hcond⟩ := hn
  by_cases hc : d.take (resolveP st.cwd DOWNLOAD_ROOT).length = resolveP st.cwd DOWNLOAD_ROOT ∧
      d.length = (resolveP st.cwd DOWNLOAD_ROOT).length + 1
  · rw [if_pos hc] at hcond
    injection hcond with h
    have hdne : ¬(d = []) := by
      intro h0
      rw [h0] at hc
      have := hc.2
      simp at this
    have hmem : d.getLastD "" ∈ d := getLastD_mem d "" hdne
    rw [h, heq] at hmem
    exact hdirs d hd hmem
  · rw [if_neg hc] at hcond
    cases hcond

theorem root_resolved (st : DirState) :
    resolveP st.cwd DOWNLOAD_ROOT = st.cwd ++ ["downloads"] := by
  apply resolveP_no_dotdot
  intro h
  exact absurd (List.mem_singleton.mp h) (by decide)

theorem latest_confined (st : DirState)
    (hdirs : ∀ d ∈ st.dirs, ¬(".." ∈ d)) (htoday : ¬(st.today = "..")) :
    (resolveP st.cwd DOWNLOAD_ROOT).isPrefixOf
      (resolveP st.cwd (get_latest_folder st)) = true := by
  have hone : ∀ x : String, ¬(x = "..") →
      (resolveP st.cwd DOWNLOAD_ROOT).isPrefixOf
        (resolveP st.cwd ⟨false, ["downloads", x]⟩) = true := by
    intro x hx
    have hres : resolveP st.cwd ⟨false, ["downloads", x]⟩ =
        st.cwd ++ ["downloads", x] := by
      apply resolveP_no_dotdot
      intro h
      rcases List.mem_cons.mp h with h1 | h1
      · exact absurd h1 (by decide)
      · exact hx (List.mem_singleton.mp h1).symm
    rw [root_resolved, hres,
      show st.cwd ++ ["downloads", x] = (st.cwd ++ ["downloads"]) ++ [x] by simp]
    exact isPrefixOf_append _ _
  cases hsubs : subdirsOfRoot st with
  | nil =>
    simp only [get_latest_folder, hsubs, get_daily_folder]
    exact hone st.today htoday
  | cons n rest =>
    simp only [get_latest_folder, hsubs]
    apply hone
    apply subdir_name_ne_dotdot st hdirs
    rw [hsubs]
    exact maxByKey_mem _ rest n

/-- The candidate path `sanitize_target_folder` builds from an explicit
folder key (main.py lines 67-69). -/
def folderCandidate (f : String) : PyPath :=
  if (parsePath f).abs then parsePath f else joinP DOWNLOAD_ROOT (parsePath f)

/-- C8: an explicit folder key is accepted exactly when its candidate path
resolves inside the download root; an out-of-root key silently falls back to
the latest folder; and the returned write target always resolves inside the
download root (for dated-folder names and directory listings free of `..`
components). -/
theorem c8_target_folder_confinement :
    (∀ (st : DirState) (f : String), ¬(f = "") →
      (resolveP st.cwd DOWNLOAD_ROOT).isPrefixOf
          (resolveP st.cwd (folderCandidate f)) = true →
      sanitize_target_folder st (some f) = folderCandidate f) ∧
    (∀ (st : DirState) (f : String), ¬(f = "") →
      ¬((resolveP st.cwd DOWNLOAD_ROOT).isPrefixOf
          (resolveP st.cwd (folderCandidate f)) = true) →
      sanitize_target_folder st (some f) = get_latest_folder st) ∧
    (∀ (st : DirState) (folder : Option String),
      (∀ d ∈ st.dirs, ¬(".." ∈ d)) → ¬(st.today = "..") →
      (resolveP st.cwd DOWNLOAD_ROOT).isPrefixOf
        (resolveP st.cwd (sanitize_target_folder st folder)) = true) := by
  refine ⟨?_, ?_, ?_⟩
  · intro st f h0 hin
    simp only [sanitize_target_folder, folderCandidate] at *
    rw [if_neg h0, if_pos hin]
  · intro st f h0 hout
    simp only [sanitize_target_folder, folderCandidate] at *
    rw [if_neg h0, if_neg hout]
  · intro st folder hdirs htoday
    match folder with
    | none => exact latest_confined st hdirs htoday
    | some f =>
      by_cases h0 : f = ""
      · simp only [sanitize_target_folder, if_pos h0]
        exact latest_confined st hdirs htoday
      · by_cases hin : (resolveP st.cwd DOWNLOAD_ROOT).isPrefixOf
            (resolveP st.cwd (folderCandidate f)) = true
        · have heq : sanitize_target_folder st (some f) = folderCandidate f := by
            simp only [sanitize_target_folder, folderCandidate] at *
            rw [if_neg h0, if_pos hin]
          rw [heq]
          exact hin
        · have heq : sanitize_target_folder st (some f) = get_latest_folder st := by
            simp only [sanitize_target_folder, folderCandidate] at *
            rw [if_neg h0, if_neg hin]
          rw [heq]
          exact latest_confined st hdirs htoday

/-- Witness for C8: an explicit `../etc` key resolves outside the root and
falls back to the latest dated folder, which is itself confined. -/
theorem c8_target_folder_confinement_witness :
    sanitize_target_folder
        ⟨["home"], [["home", "downloads", "old"]], fun _ => 5, "2026.10.12 - Images"⟩
        (some "../etc") =
      get_latest_folder
        ⟨["home"], [["home", "downloads", "old"]], fun _ => 5, "2026.10.12 - Images"⟩ :=
  c8_target_folder_confinement.2.1
    ⟨["home"], [["home", "downloads", "old"]], fun _ => 5, "2026.10.12 - Images"⟩
    "../etc" (by decide) (by decide)

/-- C9 (counterexample): an unexpected exception raised during the
column-listing step of `/csv/prepare` is answered with HTTP 400 carrying the
exception's message, not HTTP 500 as claimed. -/
theorem c9_counterexample :
    prepare_csv (some "report.csv") (Outcome.ok ("tok", "path", "report.csv"))
        (Outcome.exn "boom") = (400, some "boom") ∧
    ¬((400 : Nat) = 500) := by
  exact ⟨rfl, by decide⟩

/-- C9 (amended): an unexpected exception during CSV storage in
`/csv/prepare` yields HTTP 500 with the exception's message, and an
unexpected (non-ValueError) exception during record extraction in
`/csv/process` yields HTTP 500 with the exception's message; but an
unexpected exception during the column-listing step of `/csv/prepare`
yields HTTP 400 with the message. -/
theorem c9_error_statuses_amended :
    (∀ (fname msg : String) (listRes : Outcome (List String)),
      ¬(fname = "") → pyLower (pathSuffix (pathNameOf fname)) = ".csv" →
      prepare_csv (some fname) (Outcome.exn msg) listRes = (500, some msg)) ∧
    (∀ (fname msg : String) (st : String × String × String),
      ¬(fname = "") → pyLower (pathSuffix (pathNameOf fname)) = ".csv" →
      prepare_csv (some fname) (Outcome.ok st) (Outcome.exn msg) = (400, some msg)) ∧
    (∀ (tok msg : String) (res : String),
      ¬(tok = "") →
      process_csv (some tok) (Outcome.ok res) (ExtractOutcome.exn msg) =
        (500, some msg)) := by
  refine ⟨?_, ?_, ?_⟩
  · intro fname msg listRes h0 hcsv
    simp [prepare_csv, if_neg h0, hcsv]
  · intro fname msg st h0 hcsv
    simp [prepare_csv, if_neg h0, hcsv]
  · intro tok msg res h0
    simp only [process_csv, if_neg h0]

/-- Witness for C9 (amended): a storage failure on a valid CSV upload is a
500. -/
theorem c9_error_statuses_amended_witness :
    prepare_csv (some "report.csv") (Outcome.exn "disk full")
        (Outcome.ok ["sku"]) = (500, some "disk full") :=
  c9_error_statuses_amended.1 "report.csv" "disk full" (Outcome.ok ["sku"])
    (by decide) (by decide)

/-! ## Character-level lemmas about `secure_filename` -/

theorem mem_intersperse_sub {β : Type} (sep : β) :
    ∀ (L : List β) (w : β), w ∈ L.intersperse sep → w = sep ∨ w ∈ L := by
  intro L
  induction L with
  | nil => intro w h; cases h
  | cons x xs ih =>
    intro w h
    cases xs with
    | nil =>
      rcases List.mem_singleton.mp h with rfl
      exact Or.inr (List.mem_singleton.mpr rfl)
    | cons y ys =>
      rcases List.mem_cons.mp h with rfl | h2
      · exact Or.inr (List.mem_cons_self _ _)
      · rcases List.mem_cons.mp h2 with rfl | h3
        · exact Or.inl rfl
        · rcases ih w h3 with h4 | h4
          · exact Or.inl h4
          · exact Or.inr (List.mem_cons_of_mem _ h4)

theorem splitWsAux_mem :
    ∀ (l acc : List Char) (w : List Char), w ∈ splitWsAux l acc →
      ∀ c ∈ w, c ∈ l ∨ c ∈ acc := by
  intro l
  induction l with
  | nil =>
    intro acc w hw c hc
    by_cases hacc : acc.isEmpty = true
    · rw [splitWsAux, if_pos hacc] at hw
      cases hw
    · rw [splitWsAux, if_neg hacc] at hw
      rcases List.mem_singleton.mp hw with rfl
      exact Or.inr (List.mem_reverse.mp hc)
  | cons a rest ih =>
    intro acc w hw c hc
    by_cases hsp : pyIsSpace a = true
    · rw [splitWsAux, if_pos hsp] at hw
      by_cases hacc : acc.isEmpty = true
      · rw [if_pos hacc] at hw
        rcases ih [] w hw c hc with h | h
        · exact Or.inl (List.mem_cons_of_mem _ h)
        · cases h
      · rw [if_neg hacc] at hw
        rcases List.mem_cons.mp hw with rfl | h2
        · exact Or.inr (List.mem_reverse.mp hc)
        · rcases ih [] w h2 c hc with h | h
          · exact Or.inl (List.mem_cons_of_mem _ h)
          · cases h
    · rw [splitWsAux, if_neg hsp] at hw
      rcases ih (a :: acc) w hw c hc with h | h
      · exact Or.inl (List.mem_cons_of_mem _ h)
      · rcases List.mem_cons.mp h with rfl | h3
        · exact Or.inl (List.mem_cons_self _ _)
        · exact Or.inr h3

/-- The character list fed to werkzeug's final `strip("._")` (a proof
abbreviation for the body of `secure_filename`). -/
def skKept (s : String) : List Char :=
  (List.intercalate ['_']
    (splitWs ((s.data.filter (fun c => c.toNat < 128)).map
      (fun c => if c = '/' then ' ' else c)))).filter allowedChar

theorem secure_filename_eq_strip (s : String) :
    secure_filename s = String.mk (stripChars stripDotUnd (skKept s)) := rfl

theorem skKept_mem {s : String} {c : Char} (h : c ∈ skKept s) :
    allowedChar c = true ∧ c.toNat < 128 ∧ (c = '_' ∨ c ∈ s.data) := by
  rw [skKept] at h
  have h1 := List.mem_filter.mp h
  refine ⟨h1.2, ?_⟩
  have h2 : c ∈ (List.intersperse ['_'] (splitWs ((s.data.filter
      (fun c => c.toNat < 128)).map (fun c => if c = '/' then ' ' else c)))).flatten :=
    h1.1
  obtain ⟨w, hw, hcw⟩ := List.mem_flatten.mp h2
  rcases mem_intersperse_sub ['_'] _ w hw with rfl | hws
  · rcases List.mem_singleton.mp hcw with rfl
    exact ⟨by decide, Or.inl rfl⟩
  · rcases splitWsAux_mem _ [] w hws c hcw with hrep | habs
    · obtain ⟨c0, hc0, hc0e⟩ := List.mem_map.mp hrep
      have hc0' := List.mem_filter.mp hc0
      by_cases hsl : c0 = '/'
      · rw [hsl, if_pos rfl] at hc0e
        rw [← hc0e] at h1
        exact absurd h1.2 (by decide)
      · rw [if_neg hsl] at hc0e
        rw [← hc0e]
        exact ⟨by simpa using hc0'.2, Or.inr hc0'.1⟩
    · cases habs

theorem stripChars_sub (p : Char → Bool) (l : List Char) (c : Char)
    (h : c ∈ stripChars p l) : c ∈ l := by
  rw [stripChars, List.mem_reverse] at h
  have h2 : c ∈ (l.dropWhile p).reverse := (List.dropWhile_sublist p).subset h
  rw [List.mem_reverse] at h2
  exact (List.dropWhile_sublist p).subset h2

theorem stripChars_eq_nil (p : Char → Bool) (l : List Char)
    (h : ∀ c ∈ l, p c = true) : stripChars p l = [] := by
  have h1 : l.dropWhile p = [] := List.dropWhile_eq_nil_iff.mpr (fun a ha => h a ha)
  rw [stripChars, h1]
  rfl

/-- Every SKU input made only of characters that are neither alphanumeric
nor a hyphen sanitises to nothing. -/
theorem sanitize_sku_non_alnum (s : String)
    (h : ∀ c ∈ s.data, c.isAlphanum = false ∧ ¬(c = '-')) :
    sanitize_sku (some s) = none := by
  have hsec : secure_filename (pyStrip s) = "" := by
    rw [secure_filename_eq_strip]
    have hall : ∀ c ∈ skKept (pyStrip s), stripDotUnd c = true := by
      intro c hc
      obtain ⟨hallow, hascii, hor⟩ := skKept_mem hc
      rcases hor with rfl | hmem
      · decide
      · have hc' : c ∈ s.data := stripChars_sub pyIsSpace s.data c hmem
        obtain ⟨hna, hnh⟩ := h c hc'
        have hcase : c.isAlphanum = true ∨ c = '_' ∨ c = '.' ∨ c = '-' := by
          simpa [allowedChar] using hallow
        rcases hcase with h1 | h1 | h1 | h1
        · rw [hna] at h1; cases h1
        · subst h1; rfl
        · subst h1; rfl
        · exact absurd h1 hnh
    rw [stripChars_eq_nil stripDotUnd _ hall]
  simp [sanitize_sku, hsec]

/-- C7 (counterexample): the input `"-"` consists only of punctuation, yet
the SKU Sanitizer keeps it (werkzeug's sanitisation preserves hyphens), so
it does not return none on every punctuation-only input. -/
theorem c7_counterexample :
    (∀ c ∈ ("-" : String).data, c.isAlphanum = false) ∧
    sanitize_sku (some "-") = some "-" ∧
    ¬(sanitize_sku (some "-") = none) := by
  exact ⟨by decide, by decide, by decide⟩

/-- C7 (amended): the SKU Sanitizer returns none for none and empty inputs;
for other inputs it trims, sanitises, replaces underscores with hyphens and
returns none exactly when that result is empty; and every input consisting
only of characters that are neither alphanumeric nor a hyphen (punctuation
other than `-`, and whitespace) yields none. -/
theorem c7_sanitizer_amended :
    sanitize_sku none = none ∧
    sanitize_sku (some "") = none ∧
    (∀ s : String, sanitize_sku (some s) = none ↔
      String.mk ((secure_filename (pyStrip s)).data.map
        (fun c => if c = '_' then '-' else c)) = "") ∧
    (∀ s : String, (∀ c ∈ s.data, c.isAlphanum = false ∧ ¬(c = '-')) →
      sanitize_sku (some s) = none) := by
  refine ⟨rfl, by decide, ?_, sanitize_sku_non_alnum⟩
  intro s
  by_cases hemp : String.mk ((secure_filename (pyStrip s)).data.map
      (fun c => if c = '_' then '-' else c)) = ""
  · simp [sanitize_sku, hemp]
  · simp [sanitize_sku, hemp]

/-- Witness for C7 (amended): a punctuation-and-whitespace input without
hyphens sanitises to none. -/
theorem c7_sanitizer_amended_witness :
    sanitize_sku (some "!! ??") = none :=
  c7_sanitizer_amended.2.2.2 "!! ??" (by decide)

/-! ## `secure_filename` as the identity on already-safe names -/

theorem allowed_not_space {c : Char} (h : allowedChar c = true) : pyIsSpace c = false := by
  cases hval : pyIsSpace c with
  | false => rfl
  | true =>
    have hdis : c = ' ' ∨ c = '\t' ∨ c = '\n' ∨ c = '\x0d' ∨ c = '\x0b' ∨ c = '\x0c' := by
      simpa [pyIsSpace] using hval
    rcases hdis with h1 | h1 | h1 | h1 | h1 | h1 <;> (subst h1; exact absurd h (by decide))

theorem allowed_ne_slash {c : Char} (h : allowedChar c = true) : ¬(c = '/') := by
  intro h1
  subst h1
  exact absurd h (by decide)

theorem map_id_of {α : Type} (f : α → α) :
    ∀ (l : List α), (∀ c ∈ l, f c = c) → l.map f = l := by
  intro l
  induction l with
  | nil => intro _; rfl
  | cons a rest ih =>
    intro h
    rw [List.map_cons, h a (List.mem_cons_self _ _),
      ih (fun c hc => h c (List.mem_cons_of_mem _ hc))]

theorem splitWsAux_no_space :
    ∀ (l acc : List Char), (∀ c ∈ l, pyIsSpace c = false) →
      splitWsAux l acc =
        if (acc.reverse ++ l) = [] then [] else [acc.reverse ++ l] := by
  intro l
  induction l with
  | nil =>
    intro acc _
    cases acc with
    | nil => rfl
    | cons a as => simp [splitWsAux]
  | cons c rest ih =>
    intro acc h
    have hc : pyIsSpace c = false := h c (List.mem_cons_self _ _)
    rw [splitWsAux, if_neg (by rw [hc]; exact Bool.false_ne_true)]
    rw [ih (c :: acc) (fun x hx => h x (List.mem_cons_of_mem _ hx))]
    have heq : (c :: acc).reverse ++ rest = acc.reverse ++ c :: rest := by simp
    rw [heq]

theorem splitWs_single (l : List Char) (h0 : ¬(l = []))
    (h : ∀ c ∈ l, pyIsSpace c = false) : splitWs l = [l] := by
  rw [splitWs, splitWsAux_no_space l [] h]
  simp [h0]

theorem intercalate_single {α : Type} (sep : List α) (w : List α) :
    List.intercalate sep [w] = w := by
  simp [List.intercalate]

theorem dropWhile_head_false (p : Char → Bool) :
    ∀ (l : List Char) (c : Char) (t : List Char), l.dropWhile p = c :: t → p c = false := by
  intro l
  induction l with
  | nil => intro c t h; cases h
  | cons a rest ih =>
    intro c t h
    rw [List.dropWhile_cons] at h
    by_cases hp : p a = true
    · rw [if_pos hp] at h
      exact ih c t h
    · rw [if_neg hp] at h
      injection h with h1 _
      rw [← h1]
      exact Bool.eq_false_iff.mpr hp

theorem dropWhile_eq_self_of (p : Char → Bool) (l : List Char)
    (h : ∀ c t, l = c :: t → p c = false) : l.dropWhile p = l := by
  cases l with
  | nil => rfl
  | cons a t =>
    rw [List.dropWhile_cons, if_neg (by rw [h a t rfl]; exact Bool.false_ne_true)]

theorem stripChars_eq_self (p : Char → Bool) (l : List Char)
    (h1 : l.dropWhile p = l) (h2 : l.reverse.dropWhile p = l.reverse) :
    stripChars p l = l := by
  rw [stripChars, h1, h2, List.reverse_reverse]

theorem stripChars_head_false (p : Char → Bool) (l : List Char) (c : Char)
    (t : List Char) (h : stripChars p l = c :: t) : p c = false := by
  have h1 : (l.dropWhile p).reverse =
      (l.dropWhile p).reverse.takeWhile p ++ (l.dropWhile p).reverse.dropWhile p :=
    (List.takeWhile_append_dropWhile p _).symm
  have h2 := congrArg List.reverse h1
  rw [List.reverse_reverse, List.reverse_append] at h2
  have h3 : l.dropWhile p =
      stripChars p l ++ ((l.dropWhile p).reverse.takeWhile p).reverse := h2
  rw [h] at h3
  rw [List.cons_append] at h3
  exact dropWhile_head_false p l c _ h3

theorem secure_filename_id (s : String) (h0 : ¬(s.data = []))
    (hall : ∀ c ∈ s.data, allowedChar c = true ∧ c.toNat < 128)
    (hhead : ∀ c t, s.data = c :: t → stripDotUnd c = false)
    (hlast : ∀ c t, s.data.reverse = c :: t → stripDotUnd c = false) :
    secure_filename s = s := by
  have hascii : s.data.filter (fun c => c.toNat < 128) = s.data :=
    List.filter_eq_self.mpr (fun c hc => decide_eq_true (hall c hc).2)
  have hslash : s.data.map (fun c => if c = '/' then ' ' else c) = s.data :=
    map_id_of _ _ (fun c hc => if_neg (allowed_ne_slash (hall c hc).1))
  have hws : splitWs s.data = [s.data] :=
    splitWs_single _ h0 (fun c hc => allowed_not_space (hall c hc).1)
  have hinter : List.intercalate ['_'] [s.data] = s.data := intercalate_single _ _
  have hkeep : s.data.filter allowedChar = s.data :=
    List.filter_eq_self.mpr (fun c hc => (hall c hc).1)
  have hstrip : stripChars stripDotUnd s.data = s.data := by
    apply stripChars_eq_self
    · exact dropWhile_eq_self_of _ _ hhead
    · exact dropWhile_eq_self_of _ _ hlast
  show String.mk (stripChars stripDotUnd ((List.intercalate ['_']
    (splitWs ((s.data.filter (fun c => c.toNat < 128)).map
      (fun c => if c = '/' then ' ' else c)))).filter allowedChar)) = s
  rw [hascii, hslash, hws, hinter, hkeep, hstrip]

theorem secure_output_chars {s : String} {c : Char}
    (h : c ∈ (secure_filename s).data) : allowedChar c = true ∧ c.toNat < 128 := by
  rw [secure_filename_eq_strip] at h
  have h2 : c ∈ skKept s := stripChars_sub _ _ _ h
  exact ⟨(skKept_mem h2).1, (skKept_mem h2).2.1⟩

theorem secure_output_head {s : String} {c : Char} {t : List Char}
    (h : (secure_filename s).data = c :: t) : stripDotUnd c = false := by
  rw [secure_filename_eq_strip] at h
  exact stripChars_head_false stripDotUnd (skKept s) c t h

/-! ## The shape of resolved output names -/

theorem takeWhile_append_stop {α : Type} (p : α → Bool) :
    ∀ (xs : List α) (y : α) (ys : List α), (∀ x ∈ xs, p x = true) → p y = false →
      (xs ++ y :: ys).takeWhile p = xs := by
  intro xs
  induction xs with
  | nil =>
    intro y ys _ hy
    rw [List.nil_append, List.takeWhile_cons, if_neg (by rw [hy]; exact Bool.false_ne_true)]
  | cons a rest ih =>
    intro y ys h hy
    rw [List.cons_append, List.takeWhile_cons, if_pos (h a (List.mem_cons_self _ _)),
      ih y ys (fun x hx => h x (List.mem_cons_of_mem _ hx)) hy]

theorem splitExt_append_ext (s e : List Char) (hs : ¬(s = [])) (he : ¬(e = []))
    (hd : ¬('.' ∈ e)) : splitExt (s ++ '.' :: e) = (s, '.' :: e) := by
  have hrev : (s ++ '.' :: e).reverse = e.reverse ++ '.' :: s.reverse := by
    rw [List.reverse_append, List.reverse_cons, List.append_assoc, List.singleton_append]
  have htake : ((s ++ '.' :: e).reverse.takeWhile (fun c => ¬(c = '.'))) = e.reverse := by
    rw [hrev]
    apply takeWhile_append_stop
    · intro x hx
      rw [List.mem_reverse] at hx
      have hne : ¬(x = '.') := fun hxx => hd (by rw [← hxx]; exact hx)
      simp [hne]
    · simp
  have haLen : afterDotLen (s ++ '.' :: e) = e.length := by
    rw [afterDotLen, htake, List.length_reverse]
  have hlen : (s ++ '.' :: e).length = s.length + (e.length + 1) := by
    simp [List.length_append]
  have hslen : ¬(s.length = 0) := fun hz => hs (List.length_eq_zero.mp hz)
  have helen : ¬(e.length = 0) := fun hz => he (List.length_eq_zero.mp hz)
  have hcond : afterDotLen (s ++ '.' :: e) + 1 < (s ++ '.' :: e).length ∧
      0 < afterDotLen (s ++ '.' :: e) := by
    rw [haLen, hlen]
    omega
  rw [splitExt]
  simp only [if_pos hcond]
  have hidx : (s ++ '.' :: e).length - (afterDotLen (s ++ '.' :: e) + 1) = s.length := by
    rw [haLen, hlen]
    omega
  rw [hidx, List.take_left' rfl, List.drop_left' rfl]

theorem str_ne_empty_of_data {s : String} (h : ¬(s.data = [])) : ¬(s = "") := by
  intro hs
  rw [hs] at h
  exact h rfl

theorem gup_base_form (fs : FS) (d : String) (stem ext : String) (e : List Char)
    (hstem0 : ¬(stem.data = []))
    (hstemall : ∀ c ∈ stem.data, allowedChar c = true ∧ c.toNat < 128)
    (hstemhead : ∀ c t, stem.data = c :: t → stripDotUnd c = false)
    (hext : ext.data = '.' :: e) (he : ¬(e = [])) (hd : ¬('.' ∈ e))
    (hallow : ∀ c ∈ ext.data, allowedChar c = true ∧ c.toNat < 128)
    (hlast : ∀ c t, ext.data.reverse = c :: t → stripDotUnd c = false) :
    ∃ st : String, ¬(st.data = []) ∧
      (get_unique_path fs d (stem ++ ext)).base = st ++ ext := by
  have hdata : (stem ++ ext).data = stem.data ++ '.' :: e := by
    rw [String.data_append, hext]
  have hid : secure_filename (stem ++ ext) = stem ++ ext := by
    apply secure_filename_id
    · rw [hdata]
      intro hh
      rcases List.append_eq_nil.mp hh with ⟨h1, _⟩
      exact hstem0 h1
    · intro c hc
      rw [String.data_append] at hc
      rcases List.mem_append.mp hc with h | h
      · exact hstemall c h
      · exact hallow c h
    · intro c t hct
      rw [String.data_append] at hct
      cases hsd : stem.data with
      | nil => exact absurd hsd hstem0
      | cons c0 t0 =>
        rw [hsd, List.cons_append] at hct
        injection hct with h1 _
        rw [← h1]
        exact hstemhead c0 t0 hsd
    · intro c t hct
      rw [String.data_append, List.reverse_append] at hct
      cases her : ext.data.reverse with
      | nil =>
        exfalso
        rw [hext] at her
        simp at her
      | cons c1 t1 =>
        rw [her, List.cons_append] at hct
        injection hct with h1 _
        rw [← h1]
        exact hlast c1 t1 her
  have hne : ¬((stem ++ ext) = "") := by
    apply str_ne_empty_of_data
    rw [hdata]
    intro hh
    rcases List.append_eq_nil.mp hh with ⟨h1, _⟩
    exact hstem0 h1
  have hsafe : gupSafeName (stem ++ ext) = stem ++ ext := by
    rw [gupSafeName, hid, if_neg hne]
  have hsplit : splitExt ((stem ++ ext).data) = (stem.data, '.' :: e) := by
    rw [hdata]
    exact splitExt_append_ext stem.data e hstem0 he hd
  have hpstem : pathStem (stem ++ ext) = stem := by
    show String.mk (splitExt ((stem ++ ext).data)).1 = stem
    rw [hsplit]
  have hpsfx : pathSuffix (stem ++ ext) = ext := by
    show String.mk (splitExt ((stem ++ ext).data)).2 = ext
    rw [hsplit, ← hext]
  have hextne : ¬(ext = "") := by
    apply str_ne_empty_of_data
    rw [hext]
    intro hh
    cases hh
  by_cases hex : fsExists fs ⟨d, gupSafeName (stem ++ ext)⟩ = true
  · obtain ⟨c, _, heq, _, _⟩ := get_unique_path_spec fs d (stem ++ ext) hex
    rw [heq]
    refine ⟨stem ++ "_" ++ natRepr c, ?_, ?_⟩
    · simp [String.data_append]
    · show gupStem (stem ++ ext) ++ "_" ++ natRepr c ++ gupSuffix (stem ++ ext) =
        stem ++ "_" ++ natRepr c ++ ext
      rw [gupStem, gupSuffix, hsafe, hpstem, hpsfx, if_neg hextne]
  · have hexf : fsExists fs ⟨d, gupSafeName (stem ++ ext)⟩ = false := by
      cases hxx : fsExists fs ⟨d, gupSafeName (stem ++ ext)⟩ with
      | false => rfl
      | true => exact absurd hxx hex
    rw [get_unique_path_eq_self fs d _ hexf]
    exact ⟨stem, hstem0, hsafe⟩

theorem data_ne_of_ne_empty {s : String} (h : ¬(s = "")) : ¬(s.data = []) := by
  intro hd
  apply h
  have heta : String.mk s.data = s := rfl
  rw [← heta, hd]

theorem repl_allowed {c : Char} (h1 : allowedChar c = true) (h2 : c.toNat < 128) :
    allowedChar (if c = '_' then '-' else c) = true ∧
      (if c = '_' then '-' else c).toNat < 128 := by
  by_cases hc : c = '_'
  · rw [if_pos hc]
    exact ⟨by decide, by decide⟩
  · rw [if_neg hc]
    exact ⟨h1, h2⟩

theorem safe_stem_form (cand : String) :
    ¬((if String.mk ((secure_filename cand).data.map
          (fun c => if c = '_' then '-' else c)) = ""
       then "image"
       else String.mk ((secure_filename cand).data.map
          (fun c => if c = '_' then '-' else c))).data = []) ∧
    (∀ c ∈ (if String.mk ((secure_filename cand).data.map
          (fun c => if c = '_' then '-' else c)) = ""
       then "image"
       else String.mk ((secure_filename cand).data.map
          (fun c => if c = '_' then '-' else c))).data,
      allowedChar c = true ∧ c.toNat < 128) ∧
    (∀ c t, (if String.mk ((secure_filename cand).data.map
          (fun c => if c = '_' then '-' else c)) = ""
       then "image"
       else String.mk ((secure_filename cand).data.map
          (fun c => if c = '_' then '-' else c))).data = c :: t →
      stripDotUnd c = false) := by
  by_cases h0 : String.mk ((secure_filename cand).data.map
      (fun c => if c = '_' then '-' else c)) = ""
  · simp only [if_pos h0]
    refine ⟨by decide, by decide, ?_⟩
    intro c t hct
    have hct2 : 'i' :: ['m', 'a', 'g', 'e'] = c :: t := hct
    injection hct2 with h1 _
    rw [← h1]
    rfl
  · simp only [if_neg h0]
    refine ⟨data_ne_of_ne_empty h0, ?_, ?_⟩
    · intro c hc
      obtain ⟨c0, hc0, hc0e⟩ := List.mem_map.mp hc
      rw [← hc0e]
      exact repl_allowed (secure_output_chars hc0).1 (secure_output_chars hc0).2
    · intro c t hct
      cases hsd : (secure_filename cand).data with
      | nil =>
        rw [hsd] at hct
        cases hct
      | cons c0 t0 =>
        rw [hsd] at hct
        have hct2 : (if c0 = '_' then '-' else c0) ::
            t0.map (fun c => if c = '_' then '-' else c) = c :: t := hct
        injection hct2 with h1 _
        have hh := secure_output_head (s := cand) hsd
        rw [← h1]
        by_cases hc0 : c0 = '_'
        · rw [if_pos hc0]
          rfl
        · rw [if_neg hc0]
          exact hh

theorem build_output_base_form (fs : FS) (sp : Pth) (ext : String) (inc : Bool)
    (sku : Option String) (e : List Char)
    (hext : ext.data = '.' :: e) (he : ¬(e = [])) (hd : ¬('.' ∈ e))
    (hallow : ∀ c ∈ ext.data, allowedChar c = true ∧ c.toNat < 128)
    (hlast : ∀ c t, ext.data.reverse = c :: t → stripDotUnd c = false) :
    ∃ st : String, ¬(st.data = []) ∧
      (build_output_filename fs sp ext inc sku).base = st ++ ext := by
  simp only [build_output_filename]
  exact gup_base_form fs sp.dir _ ext e (safe_stem_form _).1 (safe_stem_form _).2.1
    (safe_stem_form _).2.2 hext he hd hallow hlast

theorem fsRead_fsRemove_self (fs : FS) (p : Pth) : fsRead (fsRemove fs p) p = none :=
  fsRead_eq_none_iff.mpr not_mem_fsPaths_fsRemove_self

/-- C6: for a PNG input with `keep_png = true`: with
`enhance_filenames = false` the Image Normalizer performs no filesystem
change at all and returns the existing path unchanged; with
`enhance_filenames = true` it only renames the file in place — the target is
a fresh unique name in the same directory ending in `.png`, carrying the
source's bytes, every other file untouched — and it fails exactly when the
rename raises (the source is missing). -/
theorem c6_png_keep_frame :
    (∀ (ops : PixOps) (fs : FS) (p : Pth) (q : Nat) (sku : Option String),
      pyLower (pathSuffix p.base) = ".png" →
      convert_image_for_web ops fs p q true false sku = (fs, some p)) ∧
    (∀ (ops : PixOps) (fs : FS) (p : Pth) (q : Nat) (sku : Option String) (b : Nat),
      pyLower (pathSuffix p.base) = ".png" → fsRead fs p = some b →
      ∃ tgt : Pth,
        convert_image_for_web ops fs p q true true sku =
          (fsWrite (fsRemove fs p) tgt b, some tgt) ∧
        tgt.dir = p.dir ∧ fsExists fs tgt = false ∧
        (∃ st : String, ¬(st.data = []) ∧ tgt.base = st ++ ".png") ∧
        fsRead (fsWrite (fsRemove fs p) tgt b) tgt = some b ∧
        fsRead (fsWrite (fsRemove fs p) tgt b) p = none ∧
        (∀ r : Pth, ¬(r = p) → ¬(r = tgt) →
          fsRead (fsWrite (fsRemove fs p) tgt b) r = fsRead fs r)) ∧
    (∀ (ops : PixOps) (fs : FS) (p : Pth) (q : Nat) (sku : Option String),
      pyLower (pathSuffix p.base) = ".png" →
      ((convert_image_for_web ops fs p q true true sku).2 = none ↔
        fsRead fs p = none)) := by
  refine ⟨?_, ?_, ?_⟩
  · intro ops fs p q sku hpng
    exact convert_png_keep_noenh ops fs p q sku hpng
  · intro ops fs p q sku b hpng hread
    refine ⟨build_output_filename fs p ".png" true sku,
      convert_png_keep_enh_some ops fs p q sku b hpng hread,
      build_output_dir fs p ".png" true sku,
      build_output_fresh fs p ".png" true sku, ?_,
      fsRead_fsWrite_self _ _ _, ?_, ?_⟩
    · apply build_output_base_form fs p ".png" true sku ['p', 'n', 'g']
      · rfl
      · intro hh
        cases hh
      · decide
      · decide
      · intro c t hct
        have hct2 : 'g' :: ['n', 'p', '.'] = c :: t := hct
        injection hct2 with h1 _
        rw [← h1]
        rfl
    · have hne : ¬(p = build_output_filename fs p ".png" true sku) := by
        intro heq
        have hfresh := build_output_fresh fs p ".png" true sku
        rw [fsExists_false_iff] at hfresh
        rw [← heq] at hfresh
        exact hfresh (mem_fsPaths_of_fsRead_some hread)
      rw [fsRead_fsWrite_ne _ _ _ _ hne]
      exact fsRead_fsRemove_self fs p
    · intro r hrp hrt
      rw [fsRead_fsWrite_ne _ _ _ _ hrt, fsRead_fsRemove_ne _ _ _ hrp]
  · intro ops fs p q sku hpng
    constructor
    · intro hnone
      cases hread : fsRead fs p with
      | none => rfl
      | some b =>
        rw [convert_png_keep_enh_some ops fs p q sku b hpng hread] at hnone
        cases hnone
    · intro hread
      rw [convert_png_keep_enh_none ops fs p q sku hpng hread]

/-- Witness for C6: normalizing an existing PNG with
`keep_png = true, enhance_filenames = false` returns the same filesystem and
the original path. -/
theorem c6_png_keep_frame_witness :
    convert_image_for_web pixFix [(⟨"d", "pic.png"⟩, 7)] ⟨"d", "pic.png"⟩ 95
        true false none = ([(⟨"d", "pic.png"⟩, 7)], some ⟨"d", "pic.png"⟩) :=
  c6_png_keep_frame.1 pixFix [(⟨"d", "pic.png"⟩, 7)] ⟨"d", "pic.png"⟩ 95 none
    (by decide)
